import Mathlib

/-!
Verification development for the aia orchestration core.

The Python sources under backend/app are shallowly embedded here:
the durable task store, the priority queues and the agent-status cache
become explicit state (St), and each operation of task_manager.py,
shared_state.py, agent_factory.py, worker_agent.py and brain_hive.py
becomes a pure Lean function over that state.  Fresh uuid4 values are
modelled by a counter in the state (mkUuid), and the wall clock by the
opaque constant nowStr.  Helper functions of redis_client / database
that the sources import but whose definitions are not part of the
repository snapshot (push_task, pop_task, create_task, get_task,
update_task, save_findings, get_findings, set_agent_status,
get_agent_status) are modelled from the spec, following the semantics
of the RedisManager / DatabaseManager methods that are in the snapshot;
each such definition carries a doc comment saying so.
-/

/-- A research finding row (research_findings table): owning task,
producing agent, opaque payload. -/
structure Finding where
  task_id : String
  agent_id : String
  payload : String
deriving DecidableEq

/-- A row of the tasks table, with the fields read or written by
task_manager.py and shared_state.py. -/
structure TaskRec where
  id : String
  human_request : String
  status : String
  priority : Int
  task_type : String := ""
  created_at : String := ""
  completed_at : Option String := none
  results : Option String := none
  progress : Option Int := none
  assigned_agents : List String := []
  subtasks : List String := []
  parent_task_id : Option String := none
deriving DecidableEq

/-- A member of a redis priority queue: the JSON object carrying the
task id (the persisted queue entry format of the spec). -/
structure QEntry where
  task_id : String
deriving DecidableEq

/-- Association-list lookup (first binding wins), used for the queue
map and the agent-status hash. -/
def alist_get {α : Type} : List (String × α) → String → Option α
  | [], _ => none
  | (k, v) :: rest, key => if k = key then some v else alist_get rest key

/-- Association-list update: overwrite the first binding of the key, or
append a new binding. -/
def alist_set {α : Type} : List (String × α) → String → α → List (String × α)
  | [], key, v => [(key, v)]
  | (k, w) :: rest, key, v =>
      if k = key then (key, v) :: rest else (k, w) :: alist_set rest key v

/-- Redis ZADD on a sorted set represented as a member/score list: the
score of an existing member is overwritten, a new member is appended. -/
def zadd (q : List (QEntry × Int)) (e : QEntry) (score : Int) : List (QEntry × Int) :=
  if q.any (fun p => decide (p.1 = e)) then
    q.map (fun p => if p.1 = e then (e, score) else p)
  else q ++ [(e, score)]

/-- The member with the maximal score (ties resolved to the earliest
listed member); ZPOPMAX returns this member. -/
def pickMax : List (QEntry × Int) → Option (QEntry × Int)
  | [] => none
  | p :: rest =>
      match pickMax rest with
      | none => some p
      | some q => if q.2 > p.2 then some q else some p

/-- Remove the first occurrence of the member from the queue. -/
def removeFirstEntry : List (QEntry × Int) → QEntry → List (QEntry × Int)
  | [], _ => []
  | p :: rest, e => if p.1 = e then rest else p :: removeFirstEntry rest e

/-- The combined system state: durable task store (insertion-ordered
rows), the named priority queues, the agent-status cache, the findings
table, and the supply of fresh uuid4 values. -/
structure St where
  tasks : List TaskRec := []
  queues : List (String × List (QEntry × Int)) := []
  agent_status : List (String × String) := []
  findings : List Finding := []
  fresh : Nat := 0
deriving DecidableEq

/-- The n-th fresh uuid4 value. -/
def mkUuid (n : Nat) : String := "uuid-" ++ toString n

/-- Draw a fresh uuid4 value (str(uuid.uuid4())). -/
def genUuid (s : St) : String × St :=
  (mkUuid s.fresh, { s with fresh := s.fresh + 1 })

/-- The wall clock (datetime.utcnow().isoformat()), opaque here. -/
def nowStr : String := "now"

/-- First row of the tasks table whose id column matches (supabase
select ... .eq('id', id), data[0]). -/
def store_find : List TaskRec → String → Option TaskRec
  | [], _ => none
  | r :: rest, id => if r.id = id then some r else store_find rest id

/-- Apply a field update to every row whose id column matches
(supabase .update(fields).eq('id', id)). -/
def update_store (l : List TaskRec) (id : String) (f : TaskRec → TaskRec) : List TaskRec :=
  l.map fun r => if r.id = id then f r else r

/-- Modelled from the spec: database.create_task is imported by
task_manager.py but absent from the snapshot; per spec section 6 and
DatabaseManager.create_task it inserts the row into the durable store. -/
def create_task (s : St) (t : TaskRec) : St :=
  { s with tasks := s.tasks ++ [t] }

/-- Modelled from the spec: database.get_task is imported by
task_manager.py but absent from the snapshot; per spec section 6 and
DatabaseManager.get_task it returns the first row matching the id. -/
def get_task (s : St) (id : String) : Option TaskRec :=
  store_find s.tasks id

/-- Modelled from the spec: database.update_task (updateFields of spec
section 6) is imported by task_manager.py but absent from the snapshot;
it merges the given fields into every row matching the id. -/
def update_task (s : St) (id : String) (f : TaskRec → TaskRec) : St :=
  { s with tasks := update_store s.tasks id f }

/-- Modelled from the spec: database.save_findings is absent from the
snapshot; it records a finding row for the task and agent. -/
def save_findings (s : St) (task_id agent_id payload : String) : St :=
  { s with findings := s.findings ++ [⟨task_id, agent_id, payload⟩] }

/-- Modelled from the spec: database.get_findings is absent from the
snapshot; it returns all finding rows of the task. -/
def get_findings (s : St) (task_id : String) : List Finding :=
  s.findings.filter fun f => decide (f.task_id = task_id)

/-- Modelled from the spec: redis_client.set_agent_status is absent
from the snapshot; it writes the agent-status snapshot to the cache. -/
def set_agent_status (s : St) (agent_id status : String) : St :=
  { s with agent_status := alist_set s.agent_status agent_id status }

/-- The queue stored under a name (empty when never written). -/
def qget (s : St) (queue_name : String) : List (QEntry × Int) :=
  match alist_get s.queues queue_name with
  | some q => q
  | none => []

/-- The score a member holds in a named queue. -/
def qscore (s : St) (queue_name : String) (e : QEntry) : Option Int :=
  ((qget s queue_name).find? fun p => decide (p.1 = e)).map (·.2)

/-- Modelled from the spec: redis_client.push_task is imported by
task_manager.py but absent from the snapshot; per spec section 6 and
RedisManager.add_task_to_queue it ZADDs the entry with the priority as
score into the named queue.  Its legacy default queue (the call without
a queue name in submit_task) is the single shared queue "tasks", the
queue SharedState uses. -/
def push_task (s : St) (e : QEntry) (priority : Int) (queue_name : String) : St :=
  { s with queues := alist_set s.queues queue_name (zadd (qget s queue_name) e priority) }

/-- Modelled from the spec: redis_client.pop_task is imported by
task_manager.py but absent from the snapshot; per
RedisManager.get_next_task it ZPOPMAXes the named queue. -/
def pop_task (s : St) (queue_name : String) : Option QEntry × St :=
  let q := qget s queue_name
  match pickMax q with
  | none => (none, s)
  | some p =>
      (some p.1, { s with queues := alist_set s.queues queue_name (removeFirstEntry q p.1) })

/-- task_manager.submit_task (lines 23-45): persist a pending row,
then push the entry into the consumer-class queue (planner_queue for
the human-request type, research_queue otherwise, line 38-39) and push
it again through the legacy default-queue call (line 42).  The module
global task_type is a parameter here. -/
def submit_task (s : St) (human_request : String) (priority : Int) (task_type : String) :
    St × String :=
  let (task_id, s1) := genUuid s
  let row : TaskRec :=
    { id := task_id, human_request := human_request, status := "pending",
      priority := priority, task_type := task_type, created_at := nowStr }
  let s2 := create_task s1 row
  let queue_name := if task_type = "human_requst" then "planner_queue" else "research_queue"
  let s3 := push_task s2 ⟨task_id⟩ priority queue_name
  let s4 := push_task s3 ⟨task_id⟩ priority "tasks"
  (s4, task_id)

/-- task_manager.check_all_subtasks_complete (lines 137-150): false
when the parent is missing or its subtasks list is empty (falsy),
otherwise true exactly when every listed subtask row exists and has
status completed. -/
def check_all_subtasks_complete (s : St) (parent_task_id : String) : Bool :=
  match get_task s parent_task_id with
  | none => false
  | some parent =>
      if parent.subtasks = [] then false
      else parent.subtasks.all fun sid =>
        match get_task s sid with
        | none => false
        | some sub => decide (sub.status = "completed")

/-- task_manager.trigger_final_synthesis (lines 152-169): draw a fresh
uuid, insert a synthesis row whose id is the parent id suffixed with
_synthesis, and push the fresh uuid (not the row id) at priority 10
into planner_queue. -/
def trigger_final_synthesis (s : St) (parent_task_id : String) : St :=
  let (synthesis_task_id, s1) := genUuid s
  let row : TaskRec :=
    { id := parent_task_id ++ "_synthesis",
      human_request := "SYNTHESIZE: " ++ parent_task_id,
      status := "pending", priority := 10, task_type := "synthesis",
      created_at := nowStr }
  let s2 := create_task s1 row
  push_task s2 ⟨synthesis_task_id⟩ 10 "planner_queue"

/-- The three unconditional writes of task_manager.complete_task
(lines 72-83): mark the row completed with results and progress 1.0,
record the finding, set the agent idle. -/
def complete_updates (s : St) (task_id agent_id results : String) : St :=
  let s1 := update_task s task_id fun r =>
    { r with status := "completed", results := some results,
             completed_at := some nowStr, progress := some 1 }
  let s2 := save_findings s1 task_id agent_id results
  set_agent_status s2 agent_id "idle"

/-- task_manager.complete_task (lines 69-96): after the writes, fetch
the row; when it carries a parent id and the eligibility check passes,
run the (unguarded) synthesis trigger; always return True. -/
def complete_task (s : St) (task_id agent_id results : String) : St × Bool :=
  let s3 := complete_updates s task_id agent_id results
  match get_task s3 task_id with
  | some task =>
      match task.parent_task_id with
      | some parent_id =>
          if check_all_subtasks_complete s3 parent_id then
            (trigger_final_synthesis s3 parent_id, true)
          else (s3, true)
      | none => (s3, true)
  | none => (s3, true)

/-- task_manager.claim_task, the second (effective) definition
(lines 171-192): pop from the queue of the agent type, and when the
popped entry resolves to a row, set it in_progress with the assigned
agents overwritten to the single claimant; the function body ends in
return None on every path (line 192). -/
def claim_task (s : St) (agent_id agent_type : String) : St × Option TaskRec :=
  let queue_name := if agent_type = "planner" then "planner_queue" else "research_queue"
  match pop_task s queue_name with
  | (none, s1) => (s1, none)
  | (some entry, s1) =>
      match get_task s1 entry.task_id with
      | some task =>
          let s2 := update_task s1 task.id fun r =>
            { r with status := "in_progress", assigned_agents := [agent_id] }
          let s3 := set_agent_status s2 agent_id "working"
          (s3, none)
      | none => (s1, none)

/-- The dict returned by task_manager.get_task_status. -/
structure StatusDict where
  status : String
  task_id : Option String := none
  progress : Int := 0
  results : Option String := none
  findings : List Finding := []
  created_at : Option String := none
  completed_at : Option String := none
deriving DecidableEq

/-- task_manager.get_task_status (lines 98-114): the not_found dict for
a missing id, otherwise the status dict; the results field is None
exactly when the stored results value is falsy (absent or empty). -/
def get_task_status (s : St) (task_id : String) : StatusDict :=
  match get_task s task_id with
  | none => { status := "not_found" }
  | some task =>
      { status := task.status,
        task_id := some task_id,
        progress := match task.progress with | some p => p | none => 0,
        results := match task.results with
                   | some r => if r = "" then none else some r
                   | none => none,
        findings := get_findings s task_id,
        created_at := some task.created_at,
        completed_at := task.completed_at }

/-- api.endpoints.get_task_endpoint (lines 24-32): a 404 HTTPException
when the status value is the not_found marker, the dict otherwise. -/
def get_task_endpoint (s : St) (task_id : String) : Except Nat StatusDict :=
  let st := get_task_status s task_id
  if st.status = "not_found" then Except.error 404 else Except.ok st

/-- The status strings the TaskStatus enum of models/task.py accepts. -/
def validStatus (st : String) : Bool :=
  decide (st = "pending") || decide (st = "in_progress") || decide (st = "completed") ||
    decide (st = "failed") || decide (st = "cancelled")

/-- SharedState.get_task (shared_state.py lines 200-225): the first row
matching the id, turned into a Task model; an unknown status string
makes the constructor raise, which the method catches, returning None. -/
def shared_get_task (s : St) (task_id : String) : Option TaskRec :=
  match get_task s task_id with
  | none => none
  | some rec => if validStatus rec.status then some rec else none

/-- SharedState.update_task (lines 178-198): write status, progress,
results, completed_at and assigned_agents of the rows matching the
task's id. -/
def shared_update_task (s : St) (t : TaskRec) : St :=
  update_task s t.id fun r =>
    { r with status := t.status, progress := t.progress, results := t.results,
             completed_at := t.completed_at, assigned_agents := t.assigned_agents }

/-- SharedState.claim_next_task (lines 227-251): ZPOPMAX the shared
tasks queue; load the task; only a Pending task is claimed (status set
in_progress, the agent appended); otherwise None. -/
def claim_next_task (s : St) (agent_id : String) : St × Option TaskRec :=
  let q := qget s "tasks"
  match pickMax q with
  | none => (s, none)
  | some p =>
      let s1 := { s with queues := alist_set s.queues "tasks" (removeFirstEntry q p.1) }
      match shared_get_task s1 p.1.task_id with
      | none => (s1, none)
      | some task =>
          if task.status = "pending" then
            let task' := { task with
              assigned_agents := task.assigned_agents ++ [agent_id],
              status := "in_progress" }
            (shared_update_task s1 task', some task')
          else (s1, none)

/-- The lifecycle-manager object; its constructor assigns the
attributes active_agents, max_counter, max_agents (and agent_timeout,
logger, which no claim reads). -/
structure AgentFactory where
  active_agents : List String
  max_counter : Nat
  max_agents : Nat
deriving DecidableEq

/-- Python attribute lookup on an AgentFactory instance for
list-valued attributes: only active_agents exists. -/
def AgentFactory.getAttrList (f : AgentFactory) (attr : String) : Option (List String) :=
  if attr = "active_agents" then some f.active_agents else none

/-- Python attribute lookup on an AgentFactory instance for
nat-valued attributes: only max_counter and max_agents exist. -/
def AgentFactory.getAttrNat (f : AgentFactory) (attr : String) : Option Nat :=
  if attr = "max_counter" then some f.max_counter
  else if attr = "max_agents" then some f.max_agents
  else none

/-- AgentFactory._spawn_agent (agent_factory.py lines 52-70): the first
statement reads and increments self.agent_counter, an attribute the
constructor never assigns (it assigns max_counter), and this read sits
before the try block, so the AttributeError escapes.  The ok branch
models the registration that would follow if the attribute existed. -/
def spawn_agent (f : AgentFactory) : Except String (AgentFactory × Option String) :=
  match f.getAttrNat "agent_counter" with
  | none => Except.error "AttributeError: agent_counter"
  | some c =>
      let n := c + 1
      let agent_id := "research_agent_" ++ toString n
      Except.ok ({ f with max_counter := n,
                          active_agents := f.active_agents ++ [agent_id] }, some agent_id)

/-- The for-loop of AgentFactory.ensure_capacity (lines 41-48): stop at
the max-agent cap, otherwise spawn and count successes. -/
def spawn_loop : AgentFactory → Nat → Nat → Except String (AgentFactory × Nat)
  | f, 0, spawned => Except.ok (f, spawned)
  | f, Nat.succ k, spawned =>
      if f.active_agents.length ≥ f.max_agents then Except.ok (f, spawned)
      else
        match spawn_agent f with
        | Except.error e => Except.error e
        | Except.ok (f', r) =>
            spawn_loop f' k (match r with | some _ => spawned + 1 | none => spawned)

/-- AgentFactory.ensure_capacity (lines 26-50): clamp the requirement,
then read len(self.activate_agents) (line 31) - an attribute the
constructor never assigns (it assigns active_agents), so the
AttributeError escapes before any comparison or spawn. -/
def ensure_capacity (f : AgentFactory) (required : Nat) : Except String (AgentFactory × Nat) :=
  let required := min required f.max_agents
  match f.getAttrList "activate_agents" with
  | none => Except.error "AttributeError: activate_agents"
  | some reg =>
      let current_count := reg.length
      if required ≤ current_count then Except.ok (f, 0)
      else spawn_loop f (required - current_count) 0

/-- One iteration of the AgentFactory.shrink_idle loop (lines 79-88):
an agent whose cached status is idle is evicted, but only while the
registry still holds more than one agent. -/
def reap_step (status : String → Option String) (acc : List String × Nat) (agent_id : String) :
    List String × Nat :=
  if status agent_id = some "idle" then
    if acc.1.length > 1 then (acc.1.erase agent_id, acc.2 + 1) else acc
  else acc

/-- AgentFactory.shrink_idle (lines 72-90): fold the reap step over the
snapshot of registry keys; get_agent_status (absent from the snapshot)
is modelled from the spec as an arbitrary cached-status oracle. -/
def shrink_idle (f : AgentFactory) (status : String → Option String) : AgentFactory × Nat :=
  let result := f.active_agents.foldl (reap_step status) (f.active_agents, 0)
  ({ f with active_agents := result.1 }, result.2)

/-- The double-quote character. -/
def quoteChar : Char := Char.ofNat 34

/-- The backslash character. -/
def backslashChar : Char := Char.ofNat 92

/-- The closing square bracket. -/
def rbrackChar : Char := Char.ofNat 93

/-- The opening square bracket. -/
def lbrackChar : Char := Char.ofNat 91

/-- The equals sign. -/
def eqChar : Char := Char.ofNat 61

/-- The newline character, the one character Python's un-DOTALL'd dot
never matches. -/
def newlineChar : Char := Char.ofNat 10

/-- Python's whitespace predicate: the code points str.isspace accepts,
which is also what the regex class backslash-s matches on str patterns
and what str.strip removes (tab through carriage return, the
file/group/record/unit separators, space, next line, no-break space,
ogham space mark, the en-quad line, line and paragraph separators,
narrow no-break space, medium mathematical space, ideographic space). -/
def pyIsSpace (c : Char) : Bool :=
  decide ((9 ≤ c.toNat ∧ c.toNat ≤ 13) ∨ (28 ≤ c.toNat ∧ c.toNat ≤ 31) ∨ c.toNat = 32 ∨
    c.toNat = 133 ∨ c.toNat = 160 ∨ c.toNat = 5760 ∨ (8192 ≤ c.toNat ∧ c.toNat ≤ 8202) ∨
    c.toNat = 8232 ∨ c.toNat = 8233 ∨ c.toNat = 8239 ∨ c.toNat = 8287 ∨ c.toNat = 12288)

/-- BrainHive.process_task line 63: double quotes of the system prompt
are escaped with a backslash. -/
def escape_sys : List Char → List Char
  | [] => []
  | c :: r =>
      if c = quoteChar then backslashChar :: quoteChar :: escape_sys r
      else c :: escape_sys r

/-- BrainHive.process_task lines 65-70: the CFG header built from an
assignment's name, role, model and (escaped) system prompt. -/
def cfg_header (name role model sys : List Char) : List Char :=
  "[CFG name=\"".toList ++ name ++ "\" role=\"".toList ++ role ++
    "\" model=\"".toList ++ model ++ "\" sys=\"".toList ++ escape_sys sys ++ "\"]".toList

/-- BrainHive.process_task line 71: the headerized subtask is the
header, one space, then the task text. -/
def headerize (name role model sys task : List Char) : List Char :=
  cfg_header name role model sys ++ " ".toList ++ task

/-- Whether the pattern is a literal prefix of the text. -/
def startsWithL : List Char → List Char → Bool
  | [], _ => true
  | _ :: _, [] => false
  | p :: ps, c :: cs => if p = c then startsWithL ps cs else false

/-- The leftmost match of the header regex (a literal open bracket,
CFG, at least one whitespace, a lazy dot group, the first closing
bracket): the group runs from the end of the whitespace run to the
first closing bracket after it, and because the dot does not match a
newline, the match at a start position also fails when a newline sits
before that closing bracket (backtracking the whitespace run only
prepends more of the same stretch, so it never helps).  None when no
start position admits such a closing bracket. -/
def cfg_group : List Char → Option (List Char)
  | [] => none
  | c :: cs =>
      if startsWithL "[CFG".toList (c :: cs) then
        match (c :: cs).drop 4 with
        | [] => cfg_group cs
        | a :: rest =>
            if pyIsSpace a then
              let body := List.dropWhile pyIsSpace (a :: rest)
              let pre := body.takeWhile fun ch => decide (ch ≠ rbrackChar)
              if (body.any fun ch => decide (ch = rbrackChar)) &&
                  !(pre.any fun ch => decide (ch = newlineChar)) then
                some pre
              else cfg_group cs
            else cfg_group cs
      else cfg_group cs

/-- re.search of a key pattern of the shape key, equals, quote, a
greedy run of non-quote characters, and a closing quote (the name,
role and model patterns of WorkerAgent._parse_cfg_header): at the
leftmost occurrence of the literal key the value runs to the next
quote; without a closing quote the search moves on. -/
def extract_plain (key : List Char) : List Char → Option (List Char)
  | [] => none
  | c :: cs =>
      if startsWithL key (c :: cs) then
        let after := (c :: cs).drop key.length
        let v := after.takeWhile fun ch => decide (ch ≠ quoteChar)
        if v.length < after.length then some v
        else extract_plain key cs
      else extract_plain key cs

/-- The sys-pattern group: a greedy run of units (a character that is
neither quote nor backslash, or a backslash followed by any character)
that must be closed by a quote; the first quote sitting at a unit
boundary closes the group. -/
def sys_body : List Char → Option (List Char)
  | [] => none
  | c :: cs =>
      if c = quoteChar then some []
      else if c = backslashChar then
        match cs with
        | [] => none
        | d :: ds =>
            match sys_body ds with
            | some v => some (backslashChar :: d :: v)
            | none => none
      else
        match sys_body cs with
        | some v => some (c :: v)
        | none => none

/-- re.search of the sys pattern of WorkerAgent._parse_cfg_header:
at the leftmost occurrence of the literal sys-key whose body parses,
the parsed group; otherwise the search moves on. -/
def extract_sys : List Char → Option (List Char)
  | [] => none
  | c :: cs =>
      if startsWithL "sys=\"".toList (c :: cs) then
        match sys_body ((c :: cs).drop 5) with
        | some v => some v
        | none => extract_sys cs
      else extract_sys cs

/-- WorkerAgent._parse_cfg_header line 78: the escaped quotes of the
captured system prompt are unescaped (str.replace, leftmost
non-overlapping). -/
def unescape_sys : List Char → List Char
  | [] => []
  | [c] => [c]
  | c :: d :: r =>
      if c = backslashChar then
        if d = quoteChar then quoteChar :: unescape_sys r
        else c :: unescape_sys (d :: r)
      else c :: unescape_sys (d :: r)

/-- The four optional fields WorkerAgent._parse_cfg_header extracts. -/
structure CfgConfig where
  name : Option (List Char) := none
  role : Option (List Char) := none
  model : Option (List Char) := none
  system_prompt : Option (List Char) := none
deriving DecidableEq

/-- WorkerAgent._parse_cfg_header (worker_agent.py lines 51-80): find
the header group, then extract each key independently. -/
def _parse_cfg_header (task : List Char) : CfgConfig :=
  match cfg_group task with
  | none => {}
  | some cfg =>
      { name := extract_plain "name=\"".toList cfg,
        role := extract_plain "role=\"".toList cfg,
        model := extract_plain "model=\"".toList cfg,
        system_prompt := (extract_sys cfg).map unescape_sys }

/-- Whether the clean-task regex matches at the head of the text: the
literal open bracket and CFG, at least one whitespace, and - since the
lazy dot group cannot cross a newline - a closing bracket after the
whitespace run with no newline before it. -/
def cfg_match_here (l : List Char) : Bool :=
  startsWithL "[CFG".toList l &&
    (match l.drop 4 with
     | [] => false
     | a :: rest =>
         pyIsSpace a &&
           (let body := List.dropWhile pyIsSpace (a :: rest)
            let pre := body.takeWhile fun ch => decide (ch ≠ rbrackChar)
            (body.any fun ch => decide (ch = rbrackChar)) &&
              !(pre.any fun ch => decide (ch = newlineChar))))

/-- What remains after the clean-task regex consumes a match at the
head: everything through the first closing bracket, then the
whitespace run after it. -/
def cfg_consume (l : List Char) : List Char :=
  List.dropWhile pyIsSpace
    ((List.dropWhile (fun ch => decide (ch ≠ rbrackChar)) (l.drop 4)).drop 1)

/-- WorkerAgent._clean_task's re.sub (line 87 without the strip): scan
left to right, removing every match of the header pattern together
with the whitespace run that follows it. -/
def cfg_strip : List Char → List Char
  | [] => []
  | c :: cs =>
      if cfg_match_here (c :: cs) then cfg_strip (cfg_consume (c :: cs))
      else c :: cfg_strip cs
termination_by l => l.length
decreasing_by
  · have hdw : ∀ (p : Char → Bool) (l : List Char), (List.dropWhile p l).length ≤ l.length := by
      intro p l
      induction l with
      | nil => simp [List.dropWhile]
      | cons a as ih =>
          by_cases h : p a = true
          · rw [List.dropWhile_cons_of_pos h]
            exact Nat.le_trans ih (by simp)
          · rw [List.dropWhile_cons_of_neg (by simpa using h)]
    have h1 : (cfg_consume (c :: r)).length ≤
        ((List.dropWhile (fun ch => decide (ch ≠ rbrackChar)) ((c :: r).drop 4)).drop 1).length := by
      simp only [cfg_consume]
      exact hdw _ _
    have h2 : ((List.dropWhile (fun ch => decide (ch ≠ rbrackChar)) ((c :: r).drop 4)).drop 1).length ≤
        (List.dropWhile (fun ch => decide (ch ≠ rbrackChar)) ((c :: r).drop 4)).length := by
      rw [List.length_drop]
      omega
    have h3 : (List.dropWhile (fun ch => decide (ch ≠ rbrackChar)) ((c :: r).drop 4)).length ≤
        ((c :: r).drop 4).length := hdw _ _
    have h4 : ((c :: r).drop 4).length = (c :: r).length - 4 := List.length_drop 4 _
    have h5 : (c :: r).length = r.length + 1 := by simp
    omega
  · simp

/-- Python str.strip: drop whitespace (str.isspace) from both ends. -/
def strip_both (l : List Char) : List Char :=
  ((List.dropWhile pyIsSpace l).reverse.dropWhile pyIsSpace).reverse

/-- WorkerAgent._clean_task (lines 82-87): remove every header match,
then strip both ends. -/
def _clean_task (task : List Char) : List Char :=
  strip_both (cfg_strip task)

/-- The empty system state. -/
def st0 : St := {}

/-- A parent task with two pending subtasks, the decomposition shape
produced by decompose_task. -/
def stParent : St :=
  { tasks := [
      { id := "p1", human_request := "research Z", status := "in_progress", priority := 5,
        subtasks := ["s1", "s2"] },
      { id := "s1", human_request := "a", status := "pending", priority := 5,
        parent_task_id := some "p1" },
      { id := "s2", human_request := "b", status := "pending", priority := 5,
        parent_task_id := some "p1" } ] }

/-- stParent after the completion of s1 is delivered. -/
def stAfterS1 : St := (complete_task stParent "s1" "a1" "r1").1

/-- stAfterS1 after the completion of s2 is delivered. -/
def stAfterS2 : St := (complete_task stAfterS1 "s2" "a2" "r2").1

/-- stAfterS2 after the completion of s2 is delivered a second time
(at-least-once redelivery). -/
def stRedelivered : St := (complete_task stAfterS2 "s2" "a2" "r2").1

/-- A parent whose two subtasks are both terminal, one of them failed. -/
def stOneFailed : St :=
  { tasks := [
      { id := "p1", human_request := "research Z", status := "in_progress", priority := 5,
        subtasks := ["s1", "s2"] },
      { id := "s1", human_request := "a", status := "completed", priority := 5,
        parent_task_id := some "p1" },
      { id := "s2", human_request := "b", status := "failed", priority := 5,
        parent_task_id := some "p1" } ] }

/-- A store holding a single cancelled task. -/
def stCancelled : St :=
  { tasks := [ { id := "t1", human_request := "h", status := "cancelled", priority := 5 } ] }

/-- A store with one cancelled and one pending task, the pending one
queued in the shared tasks queue. -/
def stClaimable : St :=
  { tasks := [
      { id := "t1", human_request := "h1", status := "cancelled", priority := 5 },
      { id := "t2", human_request := "h2", status := "pending", priority := 5 } ],
    queues := [("tasks", [(⟨"t2"⟩, 5)])] }

/-- A store with one pending task carrying no results payload. -/
def stNoResults : St :=
  { tasks := [ { id := "t1", human_request := "h", status := "pending", priority := 5 } ] }

/-- A factory whose registry holds exactly one agent. -/
def facOne : AgentFactory := ⟨["a1"], 0, 10⟩

/-- A status oracle reporting every agent idle. -/
def statusAllIdle : String → Option String := fun _ => some "idle"

/-- The record stored for t1 in stClaimable. -/
def recCancelled : TaskRec :=
  { id := "t1", human_request := "h1", status := "cancelled", priority := 5 }

/-- The directive round-trip example of the spec: name, role, model and
a system prompt containing escaped double quotes. -/
def exampleName : List Char := "market_analyzer".toList

/-- The example role. -/
def exampleRole : List Char := "Market Analyst".toList

/-- The example model. -/
def exampleModel : List Char := "m1".toList

/-- The example system prompt, Say "hi" with literal double quotes. -/
def exampleSys : List Char := ("Say " ++ String.mk [quoteChar] ++ "hi" ++ String.mk [quoteChar]).toList

/-- The example task text. -/
def exampleTask : List Char := "analyze the market".toList

/-- A system prompt consisting of a single closing square bracket. -/
def bracketSys : List Char := [rbrackChar]

/-- The headerized subtask built from a closing-bracket system prompt. -/
def bracketSub : List Char := headerize "n".toList "r".toList "m".toList bracketSys "t".toList

/-- Characters safe for the name, role and model fields: anything but a
double quote, a closing square bracket, an equals sign and a newline. -/
def safePlain (l : List Char) : Prop :=
  ∀ c ∈ l, c ≠ quoteChar ∧ c ≠ rbrackChar ∧ c ≠ eqChar ∧ c ≠ newlineChar

/-- Characters safe for the system prompt: anything but a backslash, a
closing square bracket and a newline (double quotes are allowed; they
get escaped). -/
def safeSys (l : List Char) : Prop :=
  ∀ c ∈ l, c ≠ backslashChar ∧ c ≠ rbrackChar ∧ c ≠ newlineChar

instance (l : List Char) : Decidable (safePlain l) := by
  unfold safePlain
  infer_instance

instance (l : List Char) : Decidable (safeSys l) := by
  unfold safeSys
  infer_instance

/-- The space character. -/
def spaceChar : Char := Char.ofNat 32

/-- The name-key literal of the worker's name pattern. -/
def nameKey : List Char := 'n' :: 'a' :: 'm' :: 'e' :: eqChar :: quoteChar :: []

/-- The role-key literal of the worker's role pattern. -/
def roleKey : List Char := 'r' :: 'o' :: 'l' :: 'e' :: eqChar :: quoteChar :: []

/-- The model-key literal of the worker's model pattern. -/
def modelKey : List Char := 'm' :: 'o' :: 'd' :: 'e' :: 'l' :: eqChar :: quoteChar :: []

/-- The sys-key literal of the worker's sys pattern. -/
def sysKey : List Char := 's' :: 'y' :: 's' :: eqChar :: quoteChar :: []

/-- The group the header regex captures on an encoded header: the four
key-value pairs, with the system prompt escaped. -/
def cfgStrOf (N R M S : List Char) : List Char :=
  nameKey ++ N ++ quoteChar :: spaceChar ::
    (roleKey ++ R ++ quoteChar :: spaceChar ::
      (modelKey ++ M ++ quoteChar :: spaceChar ::
        (sysKey ++ escape_sys S ++ [quoteChar])))

/-- Reading back the key just written returns the new value. -/
theorem alist_get_set_eq {α : Type} (l : List (String × α)) (k : String) (v : α) :
    alist_get (alist_set l k v) k = some v := by
  induction l with
  | nil => simp [alist_set, alist_get]
  | cons p rest ih =>
      obtain ⟨k', w⟩ := p
      by_cases h : k' = k
      · simp [alist_set, h, alist_get]
      · simp [alist_set, h, alist_get, ih]

/-- Writing one key leaves every other key unchanged. -/
theorem alist_get_set_ne {α : Type} (l : List (String × α)) (k k' : String) (v : α)
    (h : k ≠ k') : alist_get (alist_set l k v) k' = alist_get l k' := by
  induction l with
  | nil => simp [alist_set, alist_get, h]
  | cons p rest ih =>
      obtain ⟨a, b⟩ := p
      by_cases ha : a = k
      · subst ha
        simp [alist_set, alist_get, h]
      · by_cases ha' : a = k'
        · simp [alist_set, alist_get, ha, ha', Ne.symm h]
        · simp [alist_set, alist_get, ha, ha', ih]

/-- After a push, the pushed queue holds the ZADDed sorted set. -/
theorem qget_push_self (s : St) (e : QEntry) (prio : Int) (qn : String) :
    qget (push_task s e prio qn) qn = zadd (qget s qn) e prio := by
  simp [push_task, qget, alist_get_set_eq]

/-- A push into one queue leaves every other queue unchanged. -/
theorem qget_push_ne (s : St) (e : QEntry) (prio : Int) (qn qn' : String) (h : qn ≠ qn') :
    qget (push_task s e prio qn) qn' = qget s qn' := by
  simp [push_task, qget, alist_get_set_ne s.queues qn qn' _ h]

/-- Overwriting an existing member makes it findable at the new score. -/
theorem find_map_overwrite (e : QEntry) (sc : Int) :
    ∀ q : List (QEntry × Int), (q.any fun p => decide (p.1 = e)) = true →
      ((q.map fun p => if p.1 = e then (e, sc) else p).find? fun p => decide (p.1 = e)) =
        some (e, sc) := by
  intro q
  induction q with
  | nil => simp
  | cons p rest ih =>
      intro h
      by_cases hp : p.1 = e
      · rw [List.map_cons, if_pos hp]
        rw [List.find?_cons_of_pos _ (by simp)]
      · rw [List.map_cons, if_neg hp]
        rw [List.find?_cons_of_neg _ (by simpa using hp)]
        have hrest : (rest.any fun p => decide (p.1 = e)) = true := by
          rw [List.any_cons] at h
          rcases Bool.or_eq_true_iff.mp h with h1 | h1
          · exact absurd (of_decide_eq_true h1) hp
          · exact h1
        exact ih hrest

/-- Appending a new member makes it findable at its score. -/
theorem find_append_new (e : QEntry) (sc : Int) :
    ∀ q : List (QEntry × Int), (q.any fun p => decide (p.1 = e)) = false →
      (((q ++ [(e, sc)]).find? fun p => decide (p.1 = e))) = some (e, sc) := by
  intro q
  induction q with
  | nil => simp [List.find?]
  | cons p rest ih =>
      intro h
      rw [List.any_cons] at h
      have hp : ¬ p.1 = e := by
        intro he
        simp [he] at h
      have hrest : (rest.any fun p => decide (p.1 = e)) = false := by
        cases hr : (rest.any fun p => decide (p.1 = e)) with
        | false => rfl
        | true => rw [hr] at h; simp at h
      rw [List.cons_append]
      rw [List.find?_cons_of_neg _ (by simpa using hp)]
      exact ih hrest

/-- ZADD always leaves the member findable at the written score. -/
theorem find_zadd (q : List (QEntry × Int)) (e : QEntry) (sc : Int) :
    ((zadd q e sc).find? fun p => decide (p.1 = e)) = some (e, sc) := by
  unfold zadd
  by_cases h : (q.any fun p => decide (p.1 = e)) = true
  · rw [if_pos h]
    exact find_map_overwrite e sc q h
  · rw [if_neg h]
    exact find_append_new e sc q (Bool.eq_false_iff.mpr h)

/-- After a push, the member scores the pushed priority in that queue. -/
theorem qscore_push_self (s : St) (e : QEntry) (prio : Int) (qn : String) :
    qscore (push_task s e prio qn) qn e = some prio := by
  simp [qscore, qget_push_self, find_zadd]

/-- The row a store lookup returns carries the looked-up id. -/
theorem store_find_id : ∀ (l : List TaskRec) (k : String) (r : TaskRec),
    store_find l k = some r → r.id = k := by
  intro l
  induction l with
  | nil => intro k r h; simp [store_find] at h
  | cons a rest ih =>
      intro k r h
      simp only [store_find] at h
      by_cases ha : a.id = k
      · rw [if_pos ha] at h
        cases h
        exact ha
      · rw [if_neg ha] at h
        exact ih k r h

/-- An id-preserving update of one id leaves lookups of any other id
unchanged. -/
theorem store_find_update_ne (uid tid : String) (f : TaskRec → TaskRec)
    (hf : ∀ r, (f r).id = r.id) (h : uid ≠ tid) :
    ∀ l : List TaskRec, store_find (update_store l uid f) tid = store_find l tid := by
  intro l
  induction l with
  | nil => rfl
  | cons a rest ih =>
      simp only [update_store, List.map] at ih ⊢
      by_cases ha : a.id = uid
      · rw [if_pos ha]
        simp only [store_find]
        rw [if_neg (by rw [hf a, ha]; exact fun he => h he), if_neg (by rw [ha]; exact fun he => h he)]
        exact ih
      · rw [if_neg ha]
        simp only [store_find]
        by_cases hatid : a.id = tid
        · rw [if_pos hatid, if_pos hatid]
        · rw [if_neg hatid, if_neg hatid]
          exact ih

/-- An id-preserving update never changes how many rows carry an id. -/
theorem filter_update_store_length (uid x : String) (f : TaskRec → TaskRec)
    (hf : ∀ r, (f r).id = r.id) :
    ∀ l : List TaskRec,
      ((update_store l uid f).filter fun r => decide (r.id = x)).length =
        (l.filter fun r => decide (r.id = x)).length := by
  intro l
  induction l with
  | nil => rfl
  | cons a rest ih =>
      simp only [update_store, List.map] at ih ⊢
      have hid : (if a.id = uid then f a else a).id = a.id := by
        by_cases ha : a.id = uid
        · rw [if_pos ha, hf a]
        · rw [if_neg ha]
      by_cases hax : a.id = x
      · rw [List.filter_cons, List.filter_cons,
            if_pos (show decide ((if a.id = uid then f a else a).id = x) = true by
              simp only [decide_eq_true_eq]
              rw [hid]
              exact hax),
            if_pos (show decide (a.id = x) = true by simp [hax])]
        simp [ih]
      · rw [List.filter_cons, List.filter_cons,
            if_neg (show ¬ decide ((if a.id = uid then f a else a).id = x) = true by
              simp only [decide_eq_true_eq]
              rw [hid]
              exact hax),
            if_neg (show ¬ decide (a.id = x) = true by simp [hax])]
        exact ih

/-- C2: the effective claim_task never returns a task: even when the
popped entry resolves to a stored task (which is then marked
in_progress), the function falls through to return None (line 192 of
task_manager.py), so the claim that a non-empty queue with a valid
head yields the task is false; only the None-on-empty-queue half of
the claim holds. -/
theorem claim_task_always_returns_none (s : St) (agent_id agent_type : String) :
    (claim_task s agent_id agent_type).2 = none := by
  unfold claim_task
  simp only []
  rcases hp : pop_task s (if agent_type = "planner" then "planner_queue" else "research_queue")
    with ⟨o, s1⟩
  cases o with
  | none => rfl
  | some e =>
      dsimp only []
      rcases hg : get_task s1 e.task_id with _ | t
      · rfl
      · rfl

/-- C3 counterexample: a parent whose subtasks are all terminal but one
of them Failed is not judged done - the eligibility check demands the
status string completed, so it returns false here, against the claim
that any terminal mix passes. -/
theorem failed_subtask_blocks_synthesis_check :
    check_all_subtasks_complete stOneFailed "p1" = false ∧
    (get_task stOneFailed "s1").map TaskRec.status = some "completed" ∧
    (get_task stOneFailed "s2").map TaskRec.status = some "failed" := by
  decide

/-- C3 amended: the eligibility check used by complete_task is true
exactly when the parent exists with a non-empty subtasks list and every
listed subtask exists with status completed; Failed does not count as
terminal for this check. -/
theorem check_all_subtasks_complete_iff (s : St) (pid : String) :
    check_all_subtasks_complete s pid = true ↔
      ∃ parent, get_task s pid = some parent ∧ parent.subtasks ≠ [] ∧
        ∀ sid ∈ parent.subtasks, ∃ sub, get_task s sid = some sub ∧ sub.status = "completed" := by
  unfold check_all_subtasks_complete
  rcases hg : get_task s pid with _ | parent
  · simp
  · simp only []
    by_cases hsub : parent.subtasks = []
    · rw [if_pos hsub]
      constructor
      · intro h
        exact absurd h (by simp)
      · rintro ⟨parent', hp', hne, -⟩
        cases hp'
        exact absurd hsub hne
    · rw [if_neg hsub]
      constructor
      · intro h
        refine ⟨parent, rfl, hsub, fun sid hsid => ?_⟩
        have hone := List.all_eq_true.mp h sid hsid
        rcases hgs : get_task s sid with _ | sub
        · rw [hgs] at hone
          cases hone
        · rw [hgs] at hone
          exact ⟨sub, rfl, of_decide_eq_true hone⟩
      · rintro ⟨parent', hp', -, hall⟩
        cases hp'
        refine List.all_eq_true.mpr fun sid hsid => ?_
        obtain ⟨sub, hgs, hst⟩ := hall sid hsid
        rw [hgs]
        exact decide_eq_true hst

/-- C4: on a fresh state, triggering synthesis for parent p1 persists
exactly one row, whose id is p1_synthesis and whose request encodes the
parent, and pushes the entry into planner_queue at priority 10 - but
the entry carries the fresh uuid, not the persisted row's id, and that
uuid resolves to no stored task. -/
theorem synthesis_queue_entry_dangling :
    (trigger_final_synthesis st0 "p1").tasks.map TaskRec.id = ["p1_synthesis"] ∧
    (trigger_final_synthesis st0 "p1").tasks.map TaskRec.human_request = ["SYNTHESIZE: p1"] ∧
    qget (trigger_final_synthesis st0 "p1") "planner_queue" = [(⟨"uuid-0"⟩, 10)] ∧
    get_task (trigger_final_synthesis st0 "p1") "uuid-0" = none ∧
    "uuid-0" ≠ "p1_synthesis" := by
  decide

/-- C5 counterexample: one submission enqueues the entry into the
consumer-class queue and also into the legacy shared queue, so a queue
other than the consumer-class queue receives an entry for the
submission, against the claim. -/
theorem submit_task_second_queue_entry :
    qscore (submit_task st0 "req" 5 "research_subtask").1 "research_queue" ⟨"uuid-0"⟩ = some 5 ∧
    qscore (submit_task st0 "req" 5 "research_subtask").1 "tasks" ⟨"uuid-0"⟩ = some 5 ∧
    "tasks" ≠ "research_queue" := by
  decide

/-- The state submit_task produces, written as the explicit chain of a
fresh-uuid draw, one insert, and two pushes. -/
theorem submit_task_state (s : St) (req : String) (prio : Int) (tt : String) :
    (submit_task s req prio tt).1 =
      push_task
        (push_task
          (create_task { s with fresh := s.fresh + 1 }
            { id := mkUuid s.fresh, human_request := req, status := "pending",
              priority := prio, task_type := tt, created_at := nowStr })
          ⟨mkUuid s.fresh⟩ prio
          (if tt = "human_requst" then "planner_queue" else "research_queue"))
        ⟨mkUuid s.fresh⟩ prio "tasks" := rfl

/-- C5 amended: submit_task persists exactly one pending row and
enqueues the entry with score equal to the priority into the
consumer-class queue, but then enqueues the same entry a second time
into push_task's legacy default queue. -/
theorem submit_task_persists_and_double_enqueues (s : St) (req : String) (prio : Int)
    (tt : String) :
    (submit_task s req prio tt).1.tasks =
      s.tasks ++ [{ id := mkUuid s.fresh, human_request := req, status := "pending",
                    priority := prio, task_type := tt, created_at := nowStr }] ∧
    qscore (submit_task s req prio tt).1
      (if tt = "human_requst" then "planner_queue" else "research_queue")
      ⟨mkUuid s.fresh⟩ = some prio ∧
    qscore (submit_task s req prio tt).1 "tasks" ⟨mkUuid s.fresh⟩ = some prio := by
  refine ⟨rfl, ?_, ?_⟩
  · by_cases h : tt = "human_requst"
    · rw [if_pos h, submit_task_state, if_pos h]
      unfold qscore
      rw [qget_push_ne _ _ _ _ _ (show "tasks" ≠ "planner_queue" from by decide)]
      rw [qget_push_self, find_zadd]
      rfl
    · rw [if_neg h, submit_task_state, if_neg h]
      unfold qscore
      rw [qget_push_ne _ _ _ _ _ (show "tasks" ≠ "research_queue" from by decide)]
      rw [qget_push_self, find_zadd]
      rfl
  · rw [submit_task_state]
    unfold qscore
    rw [qget_push_self, find_zadd]
    rfl

/-- C6 counterexample: complete_task writes Completed unconditionally,
so a task already in the terminal state Cancelled leaves it: its status
becomes Completed, against the claim that no operation changes a
terminal status. -/
theorem complete_task_overwrites_cancelled :
    (get_task stCancelled "t1").map TaskRec.status = some "cancelled" ∧
    (get_task (complete_task stCancelled "t1" "a1" "r1").1 "t1").map TaskRec.status =
      some "completed" := by
  decide

/-- C6 amended: only SharedState.claim_next_task guards the transition:
it claims a task only when the loaded row is Pending, so a stored row
whose status is not pending is left entirely unchanged by it; the
task_manager operations complete_task and claim_task write their target
status unconditionally (see the counterexample). -/
theorem claim_next_task_preserves_nonpending (s : St) (aid tid : String) (rec : TaskRec)
    (hget : get_task s tid = some rec) (hst : rec.status ≠ "pending") :
    get_task (claim_next_task s aid).1 tid = some rec := by
  unfold claim_next_task
  simp only []
  rcases hp : pickMax (qget s "tasks") with _ | p
  · exact hget
  · dsimp only []
    have hs1 : get_task
        { s with queues := alist_set s.queues "tasks" (removeFirstEntry (qget s "tasks") p.1) }
        tid = some rec := hget
    rcases hsg : shared_get_task
        { s with queues := alist_set s.queues "tasks" (removeFirstEntry (qget s "tasks") p.1) }
        p.1.task_id with _ | task
    · exact hs1
    · dsimp only []
      have htask : get_task
          { s with queues := alist_set s.queues "tasks" (removeFirstEntry (qget s "tasks") p.1) }
          p.1.task_id = some task ∧ task.id = p.1.task_id := by
        unfold shared_get_task at hsg
        rcases hg2 : get_task
            { s with queues := alist_set s.queues "tasks" (removeFirstEntry (qget s "tasks") p.1) }
            p.1.task_id with _ | r2
        · rw [hg2] at hsg
          dsimp only [] at hsg
          cases hsg
        · rw [hg2] at hsg
          dsimp only [] at hsg
          by_cases hv : validStatus r2.status = true
          · rw [if_pos hv] at hsg
            cases hsg
            exact ⟨rfl, store_find_id _ _ _ hg2⟩
          · rw [if_neg hv] at hsg
            cases hsg
      by_cases hpend : task.status = "pending"
      · rw [if_pos hpend]
        have hne : task.id ≠ tid := by
          intro he
          have hpt : p.1.task_id = tid := by rw [← htask.2]; exact he
          have h1 := htask.1
          rw [hpt, hs1] at h1
          have hrt : rec = task := Option.some.inj h1
          rw [hrt] at hst
          exact hst hpend
        unfold shared_update_task update_task
        refine Eq.trans (store_find_update_ne _ tid _ (fun r => ?_) hne _) hs1
        rfl
      · rw [if_neg hpend]
        exact hs1

/-- C6 amended witness at a concrete input: claiming from a queue that
pops a pending task leaves the stored cancelled task untouched. -/
theorem claim_next_task_preserves_nonpending_witness :
    get_task (claim_next_task stClaimable "a9").1 "t1" = some recCancelled :=
  claim_next_task_preserves_nonpending stClaimable "a9" "t1" recCancelled
    (by decide) (by decide)

/-- C8: ensure_capacity always raises before reaching any comparison or
spawn: line 31 of agent_factory.py reads self.activate_agents, an
attribute the constructor never assigns (it assigns active_agents), so
every call ends in AttributeError instead of returning a spawn count. -/
theorem ensure_capacity_always_raises (f : AgentFactory) (required : Nat) :
    ensure_capacity f required = Except.error "AttributeError: activate_agents" := by
  rfl

/-- C9: the idle reap keeps the floor: a non-empty registry stays
non-empty (every eviction happens only while more than one agent is
registered), and a registry holding exactly one agent loses nobody,
whatever the status oracle reports. -/
theorem shrink_idle_floor (f : AgentFactory) (status : String → Option String) :
    (f.active_agents ≠ [] → (shrink_idle f status).1.active_agents ≠ []) ∧
    (f.active_agents.length = 1 → (shrink_idle f status).2 = 0) := by
  have keep : ∀ (ids reg : List String) (n : Nat), reg ≠ [] →
      (List.foldl (reap_step status) (reg, n) ids).1 ≠ [] := by
    intro ids
    induction ids with
    | nil => intro reg n h; exact h
    | cons a rest ih =>
        intro reg n h
        rw [List.foldl_cons]
        rcases hstep : reap_step status (reg, n) a with ⟨reg', n'⟩
        have hreg' : reg' ≠ [] := by
          unfold reap_step at hstep
          by_cases hi : status a = some "idle"
          · rw [if_pos hi] at hstep
            by_cases hlen : reg.length > 1
            · rw [if_pos hlen] at hstep
              cases hstep
              have : reg.length - 1 ≤ (reg.erase a).length := by
                clear hi hlen h
                induction reg with
                | nil => simp
                | cons b bs ihb =>
                    rw [List.erase_cons]
                    by_cases hb : b = a
                    · rw [if_pos (by simp [hb])]
                      simp
                    · rw [if_neg (by simp [hb])]
                      simp only [List.length_cons]
                      omega
              have hpos : 0 < (reg.erase a).length := by omega
              exact List.ne_nil_of_length_pos hpos
            · rw [if_neg hlen] at hstep
              cases hstep
              exact h
          · rw [if_neg hi] at hstep
            cases hstep
            exact h
        exact ih reg' n' hreg'
  have small : ∀ (ids reg : List String) (n : Nat), reg.length ≤ 1 →
      List.foldl (reap_step status) (reg, n) ids = (reg, n) := by
    intro ids
    induction ids with
    | nil => intro reg n _; rfl
    | cons a rest ih =>
        intro reg n h
        rw [List.foldl_cons]
        have hstep : reap_step status (reg, n) a = (reg, n) := by
          unfold reap_step
          by_cases hi : status a = some "idle"
          · rw [if_pos hi, if_neg (by simp; omega)]
          · rw [if_neg hi]
        rw [hstep]
        exact ih reg n h
  constructor
  · intro h
    unfold shrink_idle
    exact keep f.active_agents f.active_agents 0 h
  · intro h
    unfold shrink_idle
    rw [small f.active_agents f.active_agents 0 (by omega)]

/-- C9 witness: a single idle agent is never reaped. -/
theorem shrink_idle_floor_witness :
    (shrink_idle facOne statusAllIdle).1.active_agents ≠ [] ∧
    (shrink_idle facOne statusAllIdle).2 = 0 :=
  ⟨(shrink_idle_floor facOne statusAllIdle).1 (by decide),
   (shrink_idle_floor facOne statusAllIdle).2 (by decide)⟩

/-- C10: a missing id yields the not_found dict and the endpoint turns
it into a 404 instead of an escaping exception; for a stored task whose
results value is not the empty string, the returned results field is
None exactly when the row holds no results payload. -/
theorem get_task_status_total (s : St) (tid : String) :
    (get_task s tid = none →
      get_task_status s tid = { status := "not_found" } ∧
      get_task_endpoint s tid = Except.error 404) ∧
    (∀ rec, get_task s tid = some rec → rec.results ≠ some "" →
      ((get_task_status s tid).results = none ↔ rec.results = none)) := by
  constructor
  · intro h
    constructor
    · simp [get_task_status, h]
    · simp [get_task_endpoint, get_task_status, h]
  · intro rec h hne
    unfold get_task_status
    rw [h]
    dsimp only []
    rcases hr : rec.results with _ | r
    · simp
    · have hrne : ¬ r = "" := by
        intro he
        exact hne (by rw [hr, he])
      dsimp only []
      rw [if_neg hrne]

/-- C10 witness: a missing id maps to not_found and 404, and the stored
task without results reports results None. -/
theorem get_task_status_total_witness :
    (get_task_status stNoResults "zz" = { status := "not_found" } ∧
     get_task_endpoint stNoResults "zz" = Except.error 404) ∧
    ((get_task_status stNoResults "t1").results = none ↔
      ({ id := "t1", human_request := "h", status := "pending", priority := 5 } : TaskRec).results
        = none) :=
  ⟨(get_task_status_total stNoResults "zz").1 (by decide),
   (get_task_status_total stNoResults "t1").2
     { id := "t1", human_request := "h", status := "pending", priority := 5 }
     (by decide) (by decide)⟩

/-- Appending one matching row grows the per-id row count by one. -/
theorem filter_append_singleton_match (l : List TaskRec) (t : TaskRec) (x : String)
    (h : t.id = x) :
    ((l ++ [t]).filter fun r => decide (r.id = x)).length =
      (l.filter fun r => decide (r.id = x)).length + 1 := by
  rw [List.filter_append]
  simp [List.filter, h]

/-- Every invocation of the synthesis trigger inserts one more row
under the parent-suffixed id and leaves the fresh-uuid entry scored 10
in planner_queue: the trigger is unconditional, nothing marks the
parent as already synthesized. -/
theorem trigger_adds_record_and_entry (s : St) (pid : String) :
    ((trigger_final_synthesis s pid).tasks.filter fun r =>
        decide (r.id = pid ++ "_synthesis")).length =
      (s.tasks.filter fun r => decide (r.id = pid ++ "_synthesis")).length + 1 ∧
    qscore (trigger_final_synthesis s pid) "planner_queue" ⟨mkUuid s.fresh⟩ = some 10 := by
  constructor
  · exact filter_append_singleton_match s.tasks _ (pid ++ "_synthesis") rfl
  · exact qscore_push_self _ _ _ _

/-- C1 amended: the trigger path of complete_task has no
set-if-absent-with-TTL marker: every delivery of a completion that
observes the parent's subtasks all completed runs the trigger, so each
such delivery inserts a fresh synthesis row for the parent and pushes a
fresh queue entry at priority 10 - one synthesis creation per eligible
delivery, not at most one per parent. -/
theorem complete_task_synthesis_unguarded (s : St) (tid aid res pid : String)
    (hpar : (get_task (complete_updates s tid aid res) tid).bind TaskRec.parent_task_id =
      some pid)
    (helig : check_all_subtasks_complete (complete_updates s tid aid res) pid = true) :
    ((complete_task s tid aid res).1.tasks.filter fun r =>
        decide (r.id = pid ++ "_synthesis")).length =
      (s.tasks.filter fun r => decide (r.id = pid ++ "_synthesis")).length + 1 ∧
    qscore (complete_task s tid aid res).1 "planner_queue" ⟨mkUuid s.fresh⟩ = some 10 := by
  unfold complete_task
  simp only []
  rcases hg : get_task (complete_updates s tid aid res) tid with _ | task
  · rw [hg] at hpar
    cases hpar
  · have hparent : task.parent_task_id = some pid := by
      rw [hg] at hpar
      simpa using hpar
    dsimp only []
    rw [hparent]
    dsimp only []
    rw [if_pos helig]
    constructor
    · have h1 := (trigger_adds_record_and_entry (complete_updates s tid aid res) pid).1
      rw [h1]
      have h2 : ((complete_updates s tid aid res).tasks.filter fun r =>
          decide (r.id = pid ++ "_synthesis")).length =
          (s.tasks.filter fun r => decide (r.id = pid ++ "_synthesis")).length := by
        refine filter_update_store_length tid _ _ (fun r => ?_) s.tasks
        rfl
      rw [h2]
    · exact (trigger_adds_record_and_entry (complete_updates s tid aid res) pid).2

/-- C1 amended witness: delivering the completion of the last subtask
once inserts one synthesis row and one priority-10 planner entry. -/
theorem complete_task_synthesis_unguarded_witness :
    ((complete_task stAfterS1 "s2" "a2" "r2").1.tasks.filter fun r =>
        decide (r.id = "p1" ++ "_synthesis")).length =
      (stAfterS1.tasks.filter fun r => decide (r.id = "p1" ++ "_synthesis")).length + 1 ∧
    qscore (complete_task stAfterS1 "s2" "a2" "r2").1 "planner_queue"
      ⟨mkUuid stAfterS1.fresh⟩ = some 10 :=
  complete_task_synthesis_unguarded stAfterS1 "s2" "a2" "r2" "p1" (by decide) (by decide)

/-- C1 counterexample: completing both subtasks and then redelivering
the last completion (at-least-once delivery) yields two synthesis rows
for the parent and two planner-queue entries - more than one synthesis
task is created, because no marker guards the trigger. -/
theorem duplicate_synthesis_on_redelivery :
    (stRedelivered.tasks.filter fun r => decide (r.id = "p1_synthesis")).length = 2 ∧
    (qget stRedelivered "planner_queue").length = 2 := by
  decide

/-- A pattern always matches at its own occurrence. -/
theorem startsWithL_append_self : ∀ (p l : List Char), startsWithL p (p ++ l) = true := by
  intro p
  induction p with
  | nil => intro l; rfl
  | cons c cs ih => intro l; simp [startsWithL, ih]

/-- Unfolding step of the prefix test. -/
theorem startsWithL_cons (p c : Char) (ps cs : List Char) :
    startsWithL (p :: ps) (c :: cs) = if p = c then startsWithL ps cs else false := rfl

/-- A prefix test decomposes at any split of the text: the pattern must
match the first block on the pattern's head part and the remainder on
its tail part. -/
theorem startsWithL_split : ∀ (K A B : List Char),
    startsWithL K (A ++ B) = (startsWithL (K.take A.length) A && startsWithL (K.drop A.length) B) := by
  intro K
  induction K with
  | nil => intro A B; cases A <;> simp [startsWithL]
  | cons k K' ih =>
      intro A B
      cases A with
      | nil => simp [startsWithL]
      | cons a A' =>
          simp only [List.cons_append, List.length_cons, List.take_succ_cons, List.drop_succ_cons,
            startsWithL_cons]
          by_cases h : k = a
          · rw [if_pos h, if_pos h, ih]
          · rw [if_neg h, if_neg h]
            rfl

/-- A key pattern of the shape word-equals-quote never matches while
the scan is inside a quote-free, equals-free field value followed by
the value's closing quote. -/
theorem startsWith_keylike_false :
    ∀ (V : List Char), (∀ c ∈ V, c ≠ eqChar ∧ c ≠ quoteChar) → V ≠ [] →
    ∀ (w : List Char), quoteChar ∉ w → ∀ Z : List Char,
      startsWithL (w ++ [eqChar, quoteChar]) (V ++ quoteChar :: Z) = false := by
  intro V
  induction V with
  | nil => intro _ h; exact absurd rfl h
  | cons v V' ih =>
      intro hsafe _ w hw Z
      cases w with
      | nil =>
          have hv : v ≠ eqChar := (hsafe v (List.mem_cons_self v V')).1
          rw [List.nil_append, List.cons_append, startsWithL_cons, if_neg (Ne.symm hv)]
      | cons w1 w' =>
          rw [List.cons_append, List.cons_append, startsWithL_cons]
          by_cases hwv : w1 = v
          · rw [if_pos hwv]
            cases V' with
            | nil =>
                rw [List.nil_append]
                cases w' with
                | nil =>
                    rw [List.nil_append, startsWithL_cons, if_neg (by decide)]
                | cons w2 w'' =>
                    have hne : w2 ≠ quoteChar := by
                      intro he
                      exact hw (by rw [← he]; exact List.mem_cons_of_mem _ (List.mem_cons_self _ _))
                    rw [List.cons_append, startsWithL_cons, if_neg hne]
            | cons v2 V'' =>
                exact ih (fun c hc => hsafe c (List.mem_cons_of_mem _ hc)) (by simp) w'
                  (fun hq => hw (List.mem_cons_of_mem _ hq)) Z
          · rw [if_neg hwv]

/-- A suffix of an appended list is a suffix of the second block, or
extends a non-empty suffix of the first block over the whole second
block. -/
theorem suffix_append_cases {α : Type} (A2 X Y : List α) (h : A2 <:+ X ++ Y) :
    A2 <:+ Y ∨ ∃ X2, X2 <:+ X ∧ X2 ≠ [] ∧ A2 = X2 ++ Y := by
  obtain ⟨t, ht⟩ := h
  rcases List.append_eq_append_iff.mp ht with ⟨a', ha1, ha2⟩ | ⟨c', hc1, hc2⟩
  · cases a' with
    | nil =>
        left
        rw [List.nil_append] at ha2
        exact ha2 ▸ List.suffix_rfl
    | cons b bs =>
        right
        exact ⟨b :: bs, ⟨t, ha1.symm⟩, by simp, ha2⟩
  · left
    exact ⟨c', hc2.symm⟩

/-- takeWhile passes over a block whose members all satisfy the
predicate. -/
theorem takeWhile_append_all (p : Char → Bool) :
    ∀ (A B : List Char), (∀ c ∈ A, p c = true) →
      List.takeWhile p (A ++ B) = A ++ List.takeWhile p B := by
  intro A
  induction A with
  | nil => intro B _; rfl
  | cons a A' ih =>
      intro B h
      rw [List.cons_append, List.takeWhile_cons_of_pos (h a (List.mem_cons_self a A')),
        ih B (fun c hc => h c (List.mem_cons_of_mem _ hc)), List.cons_append]

/-- dropWhile passes over a block whose members all satisfy the
predicate. -/
theorem dropWhile_append_all (p : Char → Bool) :
    ∀ (A B : List Char), (∀ c ∈ A, p c = true) →
      List.dropWhile p (A ++ B) = List.dropWhile p B := by
  intro A
  induction A with
  | nil => intro B _; rfl
  | cons a A' ih =>
      intro B h
      rw [List.cons_append, List.dropWhile_cons_of_pos (h a (List.mem_cons_self a A')),
        ih B (fun c hc => h c (List.mem_cons_of_mem _ hc))]

/-- One unfolding step of the escape. -/
theorem escape_sys_cons (c : Char) (r : List Char) :
    escape_sys (c :: r) =
      if c = quoteChar then backslashChar :: quoteChar :: escape_sys r
      else c :: escape_sys r := rfl

/-- One unfolding step of the unescape on two or more characters. -/
theorem unescape_sys_cons2 (c d : Char) (r : List Char) :
    unescape_sys (c :: d :: r) =
      if c = backslashChar then
        (if d = quoteChar then quoteChar :: unescape_sys r else c :: unescape_sys (d :: r))
      else c :: unescape_sys (d :: r) := rfl

/-- The sys-pattern body closes at a quote. -/
theorem sys_body_quote (cs : List Char) : sys_body (quoteChar :: cs) = some [] := by
  rw [sys_body.eq_def]
  dsimp only []
  rw [if_pos rfl]

/-- The sys-pattern body consumes a backslash pair as one unit. -/
theorem sys_body_backslash_some (d : Char) (ds v : List Char) (hv : sys_body ds = some v) :
    sys_body (backslashChar :: d :: ds) = some (backslashChar :: d :: v) := by
  rw [sys_body.eq_def]
  dsimp only []
  rw [if_neg (show ¬ backslashChar = quoteChar from by decide), if_pos rfl]
  rw [hv]

/-- The sys-pattern body consumes an ordinary character as a unit. -/
theorem sys_body_other_some (c : Char) (cs v : List Char) (hc1 : c ≠ quoteChar)
    (hc2 : c ≠ backslashChar) (hv : sys_body cs = some v) :
    sys_body (c :: cs) = some (c :: v) := by
  rw [sys_body.eq_def]
  dsimp only []
  rw [if_neg hc1, if_neg hc2]
  rw [hv]

/-- Every character of an escaped prompt is a character of the prompt,
a backslash, or a double quote. -/
theorem escape_sys_mem : ∀ (S : List Char) (c : Char), c ∈ escape_sys S →
    c ∈ S ∨ c = backslashChar ∨ c = quoteChar := by
  intro S
  induction S with
  | nil => intro c h; cases h
  | cons a S' ih =>
      intro c h
      rw [escape_sys_cons] at h
      by_cases ha : a = quoteChar
      · rw [if_pos ha] at h
        rw [List.mem_cons, List.mem_cons] at h
        rcases h with h1 | h1 | h1
        · right; left; exact h1
        · right; right; exact h1
        · rcases ih c h1 with h2 | h2
          · left; exact List.mem_cons_of_mem _ h2
          · right; exact h2
      · rw [if_neg ha] at h
        rw [List.mem_cons] at h
        rcases h with h1 | h1
        · left; rw [h1]; exact List.mem_cons_self a S'
        · rcases ih c h1 with h2 | h2
          · left; exact List.mem_cons_of_mem _ h2
          · right; exact h2

/-- Unescaping inverts escaping on prompts without literal backslashes. -/
theorem unescape_escape : ∀ (S : List Char), (∀ c ∈ S, c ≠ backslashChar) →
    unescape_sys (escape_sys S) = S := by
  intro S
  induction S with
  | nil => intro _; rfl
  | cons a S' ih =>
      intro h
      have ha : a ≠ backslashChar := h a (List.mem_cons_self a S')
      have ih' := ih fun c hc => h c (List.mem_cons_of_mem _ hc)
      by_cases hq : a = quoteChar
      · rw [escape_sys_cons, if_pos hq, unescape_sys_cons2, if_pos rfl, if_pos rfl, ih', hq]
      · rw [escape_sys_cons, if_neg hq]
        rcases he : escape_sys S' with _ | ⟨d, r⟩
        · rw [he] at ih'
          cases S' with
          | nil => rfl
          | cons b S'' =>
              rw [escape_sys_cons] at he
              by_cases hb : b = quoteChar
              · rw [if_pos hb] at he
                cases he
              · rw [if_neg hb] at he
                cases he
        · rw [unescape_sys_cons2, if_neg ha, ← he, ih']

/-- The sys-pattern body consumes exactly the escaped prompt and stops
at its closing quote. -/
theorem sys_body_escape : ∀ (S : List Char), (∀ c ∈ S, c ≠ backslashChar) →
    ∀ rest, sys_body (escape_sys S ++ quoteChar :: rest) = some (escape_sys S) := by
  intro S
  induction S with
  | nil =>
      intro _ rest
      rw [show escape_sys [] = [] from rfl, List.nil_append, sys_body_quote]
  | cons a S' ih =>
      intro h rest
      have ha : a ≠ backslashChar := h a (List.mem_cons_self a S')
      have ih' := ih (fun c hc => h c (List.mem_cons_of_mem _ hc)) rest
      by_cases hq : a = quoteChar
      · rw [escape_sys_cons, if_pos hq, List.cons_append, List.cons_append,
          sys_body_backslash_some quoteChar _ _ ih']
      · rw [escape_sys_cons, if_neg hq, List.cons_append,
          sys_body_other_some a _ _ hq ha ih']

/-- The plain-key scan steps over a position where the key does not
match. -/
theorem extract_plain_cons_skip (key : List Char) (c : Char) (cs : List Char)
    (h : startsWithL key (c :: cs) = false) :
    extract_plain key (c :: cs) = extract_plain key cs := by
  rw [extract_plain.eq_def]
  dsimp only []
  rw [h]
  rfl

/-- The sys scan steps over a position where the sys key does not
match. -/
theorem extract_sys_cons_skip (c : Char) (cs : List Char)
    (h : startsWithL "sys=\"".toList (c :: cs) = false) :
    extract_sys (c :: cs) = extract_sys cs := by
  rw [extract_sys.eq_def]
  dsimp only []
  rw [h]
  rfl

/-- The plain-key scan passes over a whole block at whose positions the
key never matches. -/
theorem extract_plain_append_skip (key : List Char) :
    ∀ (A B : List Char), (∀ A2, A2 ≠ [] → A2 <:+ A → startsWithL key (A2 ++ B) = false) →
      extract_plain key (A ++ B) = extract_plain key B := by
  intro A
  induction A with
  | nil => intro B _; rfl
  | cons a A' ih =>
      intro B h
      rw [List.cons_append,
        extract_plain_cons_skip key a (A' ++ B)
          (by
            have := h (a :: A') (by simp) List.suffix_rfl
            rwa [List.cons_append] at this)]
      exact ih B fun A2 hne hsuf => h A2 hne (hsuf.trans (List.suffix_cons a A'))

/-- The sys scan passes over a whole block at whose positions the sys
key never matches. -/
theorem extract_sys_append_skip :
    ∀ (A B : List Char),
      (∀ A2, A2 ≠ [] → A2 <:+ A → startsWithL "sys=\"".toList (A2 ++ B) = false) →
      extract_sys (A ++ B) = extract_sys B := by
  intro A
  induction A with
  | nil => intro B _; rfl
  | cons a A' ih =>
      intro B h
      rw [List.cons_append,
        extract_sys_cons_skip a (A' ++ B)
          (by
            have := h (a :: A') (by simp) List.suffix_rfl
            rwa [List.cons_append] at this)]
      exact ih B fun A2 hne hsuf => h A2 hne (hsuf.trans (List.suffix_cons a A'))

/-- One unfolding step of the plain-key scan. -/
theorem extract_plain_cons_eq (key : List Char) (c : Char) (cs : List Char) :
    extract_plain key (c :: cs) =
      if startsWithL key (c :: cs) then
        (let after := (c :: cs).drop key.length
         let v := after.takeWhile fun ch => decide (ch ≠ quoteChar)
         if v.length < after.length then some v else extract_plain key cs)
      else extract_plain key cs := rfl

/-- At its occurrence, the plain-key pattern captures the quote-free
value up to the closing quote. -/
theorem extract_plain_hit (k : Char) (ks V rest : List Char) (hV : quoteChar ∉ V) :
    extract_plain (k :: ks) ((k :: ks) ++ V ++ quoteChar :: rest) = some V := by
  rw [show (k :: ks) ++ V ++ quoteChar :: rest = k :: (ks ++ (V ++ quoteChar :: rest)) by simp]
  rw [extract_plain_cons_eq]
  rw [if_pos (show startsWithL (k :: ks) (k :: (ks ++ (V ++ quoteChar :: rest))) = true from
    startsWithL_append_self (k :: ks) _)]
  dsimp only []
  rw [show (k :: (ks ++ (V ++ quoteChar :: rest))).drop (k :: ks).length = V ++ quoteChar :: rest
    from List.drop_left (k :: ks) (V ++ quoteChar :: rest)]
  have hall : ∀ c ∈ V, (fun ch => decide (ch ≠ quoteChar)) c = true := by
    intro c hc
    simp only [decide_eq_true_eq]
    intro he
    rw [he] at hc
    exact hV hc
  rw [takeWhile_append_all _ V (quoteChar :: rest) hall]
  rw [show List.takeWhile (fun ch => decide (ch ≠ quoteChar)) (quoteChar :: rest) = [] by
    rw [List.takeWhile_cons_of_neg]
    simp]
  rw [if_pos (by simp)]
  simp

/-- The condition under which a scan for one key passes over one whole
earlier segment (that segment's key literal, its safe value, its
closing quote and the following space). -/
theorem skip_cond_seg (K L N : List Char)
    (hK1 : ∀ A2 ∈ L.tails, A2 ≠ [] → startsWithL (K.take A2.length) A2 = false)
    (hK2 : ∀ A2 ∈ [quoteChar, spaceChar].tails, A2 ≠ [] →
      startsWithL (K.take A2.length) A2 = false)
    (w : List Char) (hKw : K = w ++ [eqChar, quoteChar]) (hw : quoteChar ∉ w)
    (hN : ∀ c ∈ N, c ≠ eqChar ∧ c ≠ quoteChar) :
    ∀ A2 B, A2 ≠ [] → A2 <:+ (L ++ N ++ [quoteChar, spaceChar]) →
      startsWithL K (A2 ++ B) = false := by
  intro A2 B hne hsuf
  rcases suffix_append_cases A2 (L ++ N) [quoteChar, spaceChar] hsuf with hcase | ⟨X2, hX2, hX2ne, rfl⟩
  · rw [startsWithL_split, hK2 A2 ((List.mem_tails _ _).mpr hcase) hne]
    rfl
  · rcases suffix_append_cases X2 L N hX2 with hx | ⟨K2, hK2s, hK2ne, rfl⟩
    · rw [show (X2 ++ [quoteChar, spaceChar]) ++ B = X2 ++ quoteChar :: (spaceChar :: B) by simp,
        hKw]
      exact startsWith_keylike_false X2
        (fun c hc => hN c (hx.subset hc)) hX2ne w hw (spaceChar :: B)
    · rw [show ((K2 ++ N) ++ [quoteChar, spaceChar]) ++ B =
          K2 ++ (N ++ ([quoteChar, spaceChar] ++ B)) by simp]
      rw [startsWithL_split, hK1 K2 ((List.mem_tails _ _).mpr hK2s) hK2ne]
      rfl

/-- One unfolding step of the header-group scan at an open-bracket CFG
prefix. -/
theorem cfg_group_open_eq (a : Char) (X : List Char) :
    cfg_group (lbrackChar :: 'C' :: 'F' :: 'G' :: a :: X) =
      if pyIsSpace a then
        (let body := List.dropWhile pyIsSpace (a :: X)
         let pre := body.takeWhile fun ch => decide (ch ≠ rbrackChar)
         if (body.any fun ch => decide (ch = rbrackChar)) &&
             !(pre.any fun ch => decide (ch = newlineChar)) then
           some pre
         else cfg_group ('C' :: 'F' :: 'G' :: a :: X))
      else cfg_group ('C' :: 'F' :: 'G' :: a :: X) := rfl

/-- The pieces of a header-body computation: the whitespace run stops
at the group head, the group runs to the first closing bracket, a
closing bracket exists, and the group holds no newline. -/
theorem header_body_cond (g0 : Char) (gs Z : List Char) (hws : pyIsSpace g0 = false)
    (hgrp : rbrackChar ∉ g0 :: gs) (hnl : newlineChar ∉ g0 :: gs) :
    List.dropWhile pyIsSpace (spaceChar :: ((g0 :: gs) ++ rbrackChar :: Z)) =
      (g0 :: gs) ++ rbrackChar :: Z ∧
    List.takeWhile (fun ch => decide (ch ≠ rbrackChar)) ((g0 :: gs) ++ rbrackChar :: Z) =
      g0 :: gs ∧
    ((g0 :: gs) ++ rbrackChar :: Z).any (fun ch => decide (ch = rbrackChar)) = true ∧
    ((g0 :: gs).any fun ch => decide (ch = newlineChar)) = false := by
  have hall : ∀ c ∈ g0 :: gs, (fun ch => decide (ch ≠ rbrackChar)) c = true := by
    intro c hc
    simp only [decide_eq_true_eq]
    intro he
    rw [he] at hc
    exact hgrp hc
  refine ⟨?_, ?_, ?_, ?_⟩
  · rw [List.dropWhile_cons_of_pos (show pyIsSpace spaceChar = true from by decide)]
    rw [show (g0 :: gs) ++ rbrackChar :: Z = g0 :: (gs ++ rbrackChar :: Z) from rfl]
    rw [List.dropWhile_cons_of_neg (by rw [hws]; simp)]
  · rw [takeWhile_append_all _ (g0 :: gs) (rbrackChar :: Z) hall]
    rw [List.takeWhile_cons_of_neg (by simp)]
    rw [List.append_nil]
  · simp
  · cases hcase : (g0 :: gs).any fun ch => decide (ch = newlineChar) with
    | false => rfl
    | true =>
        obtain ⟨x, hx, hx2⟩ := List.any_eq_true.mp hcase
        rw [of_decide_eq_true hx2] at hx
        exact absurd hx hnl

/-- The header regex on an encoded header captures everything between
the space after CFG and the first closing bracket. -/
theorem cfg_group_at (g0 : Char) (gs rest : List Char) (hws : pyIsSpace g0 = false)
    (hgrp : rbrackChar ∉ g0 :: gs) (hnl : newlineChar ∉ g0 :: gs) :
    cfg_group (lbrackChar :: 'C' :: 'F' :: 'G' :: spaceChar ::
        ((g0 :: gs) ++ rbrackChar :: rest)) = some (g0 :: gs) := by
  obtain ⟨hb1, hb2, hb3, hb4⟩ := header_body_cond g0 gs rest hws hgrp hnl
  rw [cfg_group_open_eq]
  rw [if_pos (show pyIsSpace spaceChar = true from by decide)]
  dsimp only []
  rw [hb1, hb2, if_pos (by rw [hb3, hb4]; rfl)]

/-- The sys scan at its occurrence: the pattern matches and the body
parse succeeds. -/
theorem extract_sys_hit_here (c : Char) (cs v : List Char)
    (hsw : startsWithL "sys=\"".toList (c :: cs) = true)
    (hb : sys_body ((c :: cs).drop 5) = some v) :
    extract_sys (c :: cs) = some v := by
  rw [extract_sys.eq_def]
  dsimp only []
  rw [hsw, hb]
  rfl

/-- The sys pattern on the sys segment of an encoded header captures
the escaped prompt. -/
theorem extract_sys_hit (S : List Char) (hS : ∀ c ∈ S, c ≠ backslashChar) :
    extract_sys (sysKey ++ escape_sys S ++ [quoteChar]) = some (escape_sys S) := by
  rw [show sysKey ++ escape_sys S ++ [quoteChar] =
      's' :: ('y' :: 's' :: eqChar :: quoteChar :: (escape_sys S ++ [quoteChar])) by
    simp [sysKey]]
  refine extract_sys_hit_here _ _ _ ?_ ?_
  · rw [show "sys=\"".toList = sysKey from by decide]
    rw [show sysKey = 's' :: 'y' :: 's' :: eqChar :: quoteChar :: [] from rfl]
    exact startsWithL_append_self ('s' :: 'y' :: 's' :: eqChar :: quoteChar :: [])
      (escape_sys S ++ [quoteChar])
  · rw [show ('s' :: ('y' :: 's' :: eqChar :: quoteChar ::
        (escape_sys S ++ [quoteChar]))).drop 5 = escape_sys S ++ [quoteChar] from rfl]
    rw [show (escape_sys S ++ [quoteChar] : List Char) =
        escape_sys S ++ quoteChar :: [] from rfl]
    exact sys_body_escape S hS []

/-- A substitution-scan step at a matching position. -/
theorem cfg_strip_cons_match (c : Char) (cs : List Char) (h : cfg_match_here (c :: cs) = true) :
    cfg_strip (c :: cs) = cfg_strip (cfg_consume (c :: cs)) := by
  rw [cfg_strip.eq_def]
  dsimp only []
  rw [h]
  rfl

/-- A substitution-scan step at a non-matching position. -/
theorem cfg_strip_cons_nomatch (c : Char) (cs : List Char)
    (h : cfg_match_here (c :: cs) = false) :
    cfg_strip (c :: cs) = c :: cfg_strip cs := by
  rw [cfg_strip.eq_def]
  dsimp only []
  rw [h]
  rfl

/-- Text without an open bracket is left unchanged by the
substitution scan. -/
theorem cfg_strip_no_lbrack : ∀ T : List Char, lbrackChar ∉ T → cfg_strip T = T := by
  intro T
  induction T with
  | nil =>
      intro _
      rw [cfg_strip.eq_def]
  | cons c cs ih =>
      intro h
      have hc : c ≠ lbrackChar := fun he => h (by rw [← he]; exact List.mem_cons_self c cs)
      have hm : cfg_match_here (c :: cs) = false := by
        unfold cfg_match_here
        rw [show "[CFG".toList = lbrackChar :: 'C' :: 'F' :: 'G' :: [] from by decide]
        rw [startsWithL_cons, if_neg (fun he => hc he.symm)]
        rfl
      rw [cfg_strip_cons_nomatch c cs hm, ih fun hm2 => h (List.mem_cons_of_mem _ hm2)]

/-- The substitution scan removes the encoded header, the closing
bracket and the following space, and leaves the task text. -/
theorem cfg_strip_headerized (g0 : Char) (gs T : List Char) (hws : pyIsSpace g0 = false)
    (hgrp : rbrackChar ∉ g0 :: gs) (hnl : newlineChar ∉ g0 :: gs)
    (hT1 : lbrackChar ∉ T) (hT2 : List.dropWhile pyIsSpace T = T) :
    cfg_strip (lbrackChar :: 'C' :: 'F' :: 'G' :: spaceChar ::
      ((g0 :: gs) ++ rbrackChar :: spaceChar :: T)) = T := by
  have hallne : ∀ c ∈ g0 :: gs, (fun ch => decide (ch ≠ rbrackChar)) c = true := by
    intro c hc
    simp only [decide_eq_true_eq]
    intro he
    rw [he] at hc
    exact hgrp hc
  obtain ⟨hb1, hb2, hb3, hb4⟩ := header_body_cond g0 gs (spaceChar :: T) hws hgrp hnl
  have hm : cfg_match_here (lbrackChar :: 'C' :: 'F' :: 'G' :: spaceChar ::
      ((g0 :: gs) ++ rbrackChar :: spaceChar :: T)) = true := by
    unfold cfg_match_here
    rw [show "[CFG".toList = lbrackChar :: 'C' :: 'F' :: 'G' :: [] from by decide]
    rw [show startsWithL (lbrackChar :: 'C' :: 'F' :: 'G' :: [])
        (lbrackChar :: 'C' :: 'F' :: 'G' :: spaceChar ::
          ((g0 :: gs) ++ rbrackChar :: spaceChar :: T)) = true from
      startsWithL_append_self (lbrackChar :: 'C' :: 'F' :: 'G' :: []) _]
    rw [Bool.true_and]
    rw [show (lbrackChar :: 'C' :: 'F' :: 'G' :: spaceChar ::
        ((g0 :: gs) ++ rbrackChar :: spaceChar :: T)).drop 4 =
      spaceChar :: ((g0 :: gs) ++ rbrackChar :: spaceChar :: T) from rfl]
    dsimp only []
    rw [show pyIsSpace spaceChar = true from by decide, Bool.true_and]
    rw [hb1, hb2, hb3, hb4]
    rfl
  rw [cfg_strip_cons_match _ _ hm]
  have hcons : cfg_consume (lbrackChar :: 'C' :: 'F' :: 'G' :: spaceChar ::
      ((g0 :: gs) ++ rbrackChar :: spaceChar :: T)) = T := by
    unfold cfg_consume
    rw [show (lbrackChar :: 'C' :: 'F' :: 'G' :: spaceChar ::
        ((g0 :: gs) ++ rbrackChar :: spaceChar :: T)).drop 4 =
      spaceChar :: ((g0 :: gs) ++ rbrackChar :: spaceChar :: T) from rfl]
    have hstep : List.dropWhile (fun ch => decide (ch ≠ rbrackChar))
        (spaceChar :: ((g0 :: gs) ++ rbrackChar :: spaceChar :: T)) =
        List.dropWhile (fun ch => decide (ch ≠ rbrackChar))
          ((g0 :: gs) ++ rbrackChar :: spaceChar :: T) :=
      List.dropWhile_cons_of_pos (by decide)
    rw [hstep]
    rw [dropWhile_append_all _ (g0 :: gs) (rbrackChar :: spaceChar :: T) hallne]
    rw [List.dropWhile_cons_of_neg (by simp)]
    rw [show (rbrackChar :: spaceChar :: T).drop 1 = spaceChar :: T from rfl]
    rw [List.dropWhile_cons_of_pos (show pyIsSpace spaceChar = true from by decide)]
    exact hT2
  rw [hcons]
  exact cfg_strip_no_lbrack T hT1

/-- Stripping is the identity on text without leading or trailing
whitespace. -/
theorem strip_both_of (T : List Char) (h1 : List.dropWhile pyIsSpace T = T)
    (h2 : List.dropWhile pyIsSpace T.reverse = T.reverse) :
    strip_both T = T := by
  unfold strip_both
  rw [h1, h2, List.reverse_reverse]

/-- The headerized subtask, written with its CFG prefix, the captured
group, the closing bracket, the separating space and the task text
made explicit. -/
theorem headerize_eq (N R M S T : List Char) :
    headerize N R M S T =
      lbrackChar :: 'C' :: 'F' :: 'G' :: spaceChar ::
        (cfgStrOf N R M S ++ rbrackChar :: spaceChar :: T) := by
  unfold headerize cfg_header
  rw [show "[CFG name=\"".toList =
      lbrackChar :: 'C' :: 'F' :: 'G' :: spaceChar :: nameKey from by decide,
    show "\" role=\"".toList = quoteChar :: spaceChar :: roleKey from by decide,
    show "\" model=\"".toList = quoteChar :: spaceChar :: modelKey from by decide,
    show "\" sys=\"".toList = quoteChar :: spaceChar :: sysKey from by decide,
    show "\"]".toList = quoteChar :: rbrackChar :: [] from by decide,
    show " ".toList = [spaceChar] from by decide]
  simp [cfgStrOf, List.append_assoc]

/-- The captured group of an encoded header contains no closing
bracket when the fields are safe. -/
theorem cfgStrOf_no_rbrack (N R M S : List Char) (hN : safePlain N) (hR : safePlain R)
    (hM : safePlain M) (hS : safeSys S) : rbrackChar ∉ cfgStrOf N R M S := by
  intro h
  unfold cfgStrOf at h
  have hkey : ∀ K : List Char, K = nameKey ∨ K = roleKey ∨ K = modelKey ∨ K = sysKey →
      rbrackChar ∉ K := by
    rintro K (rfl | rfl | rfl | rfl) <;> decide
  rcases List.mem_append.mp h with h1 | h1
  · rcases List.mem_append.mp h1 with h2 | h2
    · exact hkey nameKey (Or.inl rfl) h2
    · exact (hN _ h2).2.1 rfl
  · rcases List.mem_cons.mp h1 with h2 | h2
    · exact absurd h2.symm (by decide)
    · rcases List.mem_cons.mp h2 with h3 | h3
      · exact absurd h3.symm (by decide)
      · rcases List.mem_append.mp h3 with h4 | h4
        · rcases List.mem_append.mp h4 with h5 | h5
          · exact hkey roleKey (Or.inr (Or.inl rfl)) h5
          · exact (hR _ h5).2.1 rfl
        · rcases List.mem_cons.mp h4 with h5 | h5
          · exact absurd h5.symm (by decide)
          · rcases List.mem_cons.mp h5 with h6 | h6
            · exact absurd h6.symm (by decide)
            · rcases List.mem_append.mp h6 with h7 | h7
              · rcases List.mem_append.mp h7 with h8 | h8
                · exact hkey modelKey (Or.inr (Or.inr (Or.inl rfl))) h8
                · exact (hM _ h8).2.1 rfl
              · rcases List.mem_cons.mp h7 with h8 | h8
                · exact absurd h8.symm (by decide)
                · rcases List.mem_cons.mp h8 with h9 | h9
                  · exact absurd h9.symm (by decide)
                  · rcases List.mem_append.mp h9 with h10 | h10
                    · rcases List.mem_append.mp h10 with h11 | h11
                      · exact hkey sysKey (Or.inr (Or.inr (Or.inr rfl))) h11
                      · rcases escape_sys_mem S rbrackChar h11 with h12 | h12 | h12
                        · exact (hS _ h12).2.1 rfl
                        · exact absurd h12 (by decide)
                        · exact absurd h12 (by decide)
                    · rcases List.mem_cons.mp h10 with h11 | h11
                      · exact absurd h11.symm (by decide)
                      · cases h11

/-- The captured group of an encoded header contains no newline when
the fields are safe. -/
theorem cfgStrOf_no_newline (N R M S : List Char) (hN : safePlain N) (hR : safePlain R)
    (hM : safePlain M) (hS : safeSys S) : newlineChar ∉ cfgStrOf N R M S := by
  intro h
  unfold cfgStrOf at h
  have hkey : ∀ K : List Char, K = nameKey ∨ K = roleKey ∨ K = modelKey ∨ K = sysKey →
      newlineChar ∉ K := by
    rintro K (rfl | rfl | rfl | rfl) <;> decide
  rcases List.mem_append.mp h with h1 | h1
  · rcases List.mem_append.mp h1 with h2 | h2
    · exact hkey nameKey (Or.inl rfl) h2
    · exact (hN _ h2).2.2.2 rfl
  · rcases List.mem_cons.mp h1 with h2 | h2
    · exact absurd h2.symm (by decide)
    · rcases List.mem_cons.mp h2 with h3 | h3
      · exact absurd h3.symm (by decide)
      · rcases List.mem_append.mp h3 with h4 | h4
        · rcases List.mem_append.mp h4 with h5 | h5
          · exact hkey roleKey (Or.inr (Or.inl rfl)) h5
          · exact (hR _ h5).2.2.2 rfl
        · rcases List.mem_cons.mp h4 with h5 | h5
          · exact absurd h5.symm (by decide)
          · rcases List.mem_cons.mp h5 with h6 | h6
            · exact absurd h6.symm (by decide)
            · rcases List.mem_append.mp h6 with h7 | h7
              · rcases List.mem_append.mp h7 with h8 | h8
                · exact hkey modelKey (Or.inr (Or.inr (Or.inl rfl))) h8
                · exact (hM _ h8).2.2.2 rfl
              · rcases List.mem_cons.mp h7 with h8 | h8
                · exact absurd h8.symm (by decide)
                · rcases List.mem_cons.mp h8 with h9 | h9
                  · exact absurd h9.symm (by decide)
                  · rcases List.mem_append.mp h9 with h10 | h10
                    · rcases List.mem_append.mp h10 with h11 | h11
                      · exact hkey sysKey (Or.inr (Or.inr (Or.inr rfl))) h11
                      · rcases escape_sys_mem S newlineChar h11 with h12 | h12 | h12
                        · exact (hS _ h12).2.2 rfl
                        · exact absurd h12 (by decide)
                        · exact absurd h12 (by decide)
                    · rcases List.mem_cons.mp h10 with h11 | h11
                      · exact absurd h11.symm (by decide)
                      · cases h11

/-- The name pattern on the captured group recovers the name. -/
theorem extract_name_cfgStr (N R M S : List Char) (hN : safePlain N) :
    extract_plain nameKey (cfgStrOf N R M S) = some N := by
  rw [show cfgStrOf N R M S = nameKey ++ N ++ quoteChar :: spaceChar ::
      (roleKey ++ R ++ quoteChar :: spaceChar ::
        (modelKey ++ M ++ quoteChar :: spaceChar ::
          (sysKey ++ escape_sys S ++ [quoteChar]))) from rfl]
  rw [show nameKey = 'n' :: 'a' :: 'm' :: 'e' :: eqChar :: quoteChar :: [] from rfl]
  exact extract_plain_hit 'n' _ N _ (fun hn => (hN _ hn).1 rfl)

/-- The role pattern on the captured group recovers the role: the scan
passes over the name segment and hits the role key. -/
theorem extract_role_cfgStr (N R M S : List Char) (hN : safePlain N) (hR : safePlain R) :
    extract_plain roleKey (cfgStrOf N R M S) = some R := by
  rw [show cfgStrOf N R M S = (nameKey ++ N ++ [quoteChar, spaceChar]) ++
      (roleKey ++ R ++ quoteChar :: spaceChar ::
        (modelKey ++ M ++ quoteChar :: spaceChar ::
          (sysKey ++ escape_sys S ++ [quoteChar]))) by
    simp [cfgStrOf]]
  rw [extract_plain_append_skip roleKey _ _
    (fun A2 hne hsuf =>
      skip_cond_seg roleKey nameKey N (by decide) (by decide)
      ('r' :: 'o' :: 'l' :: 'e' :: []) (by decide) (by decide)
      (fun c hc => ⟨(hN c hc).2.2.1, (hN c hc).1⟩) A2 _ hne hsuf)]
  rw [show roleKey = 'r' :: 'o' :: 'l' :: 'e' :: eqChar :: quoteChar :: [] from rfl]
  exact extract_plain_hit 'r' _ R _ (fun hr => (hR _ hr).1 rfl)

/-- The model pattern on the captured group recovers the model: the
scan passes over the name and role segments. -/
theorem extract_model_cfgStr (N R M S : List Char) (hN : safePlain N) (hR : safePlain R)
    (hM : safePlain M) :
    extract_plain modelKey (cfgStrOf N R M S) = some M := by
  rw [show cfgStrOf N R M S = (nameKey ++ N ++ [quoteChar, spaceChar]) ++
      ((roleKey ++ R ++ [quoteChar, spaceChar]) ++
        (modelKey ++ M ++ quoteChar :: spaceChar ::
          (sysKey ++ escape_sys S ++ [quoteChar]))) by
    simp [cfgStrOf]]
  rw [extract_plain_append_skip modelKey _ _
    (fun A2 hne hsuf =>
      skip_cond_seg modelKey nameKey N (by decide) (by decide)
      ('m' :: 'o' :: 'd' :: 'e' :: 'l' :: []) (by decide) (by decide)
      (fun c hc => ⟨(hN c hc).2.2.1, (hN c hc).1⟩) A2 _ hne hsuf)]
  rw [extract_plain_append_skip modelKey _ _
    (fun A2 hne hsuf =>
      skip_cond_seg modelKey roleKey R (by decide) (by decide)
      ('m' :: 'o' :: 'd' :: 'e' :: 'l' :: []) (by decide) (by decide)
      (fun c hc => ⟨(hR c hc).2.2.1, (hR c hc).1⟩) A2 _ hne hsuf)]
  rw [show modelKey = 'm' :: 'o' :: 'd' :: 'e' :: 'l' :: eqChar :: quoteChar :: [] from rfl]
  exact extract_plain_hit 'm' _ M _ (fun hm => (hM _ hm).1 rfl)

/-- The sys pattern on the captured group recovers the escaped prompt:
the scan passes over the name, role and model segments. -/
theorem extract_sys_cfgStr (N R M S : List Char) (hN : safePlain N) (hR : safePlain R)
    (hM : safePlain M) (hS : safeSys S) :
    extract_sys (cfgStrOf N R M S) = some (escape_sys S) := by
  rw [show cfgStrOf N R M S = (nameKey ++ N ++ [quoteChar, spaceChar]) ++
      ((roleKey ++ R ++ [quoteChar, spaceChar]) ++
        ((modelKey ++ M ++ [quoteChar, spaceChar]) ++
          (sysKey ++ escape_sys S ++ [quoteChar]))) by
    simp [cfgStrOf]]
  rw [extract_sys_append_skip _ _
    (fun A2 hne hsuf =>
      skip_cond_seg "sys=\"".toList nameKey N (by decide) (by decide)
      ('s' :: 'y' :: 's' :: []) (by decide) (by decide)
      (fun c hc => ⟨(hN c hc).2.2.1, (hN c hc).1⟩) A2 _ hne hsuf)]
  rw [extract_sys_append_skip _ _
    (fun A2 hne hsuf =>
      skip_cond_seg "sys=\"".toList roleKey R (by decide) (by decide)
      ('s' :: 'y' :: 's' :: []) (by decide) (by decide)
      (fun c hc => ⟨(hR c hc).2.2.1, (hR c hc).1⟩) A2 _ hne hsuf)]
  rw [extract_sys_append_skip _ _
    (fun A2 hne hsuf =>
      skip_cond_seg "sys=\"".toList modelKey M (by decide) (by decide)
      ('s' :: 'y' :: 's' :: []) (by decide) (by decide)
      (fun c hc => ⟨(hM c hc).2.2.1, (hM c hc).1⟩) A2 _ hne hsuf)]
  exact extract_sys_hit S (fun c hc => (hS c hc).1)

/-- C7 amended: for every assignment whose name, role and model are
free of double quotes, closing brackets and equals signs, whose system
prompt is free of backslashes and closing brackets (double quotes are
allowed and round-trip through the escaping), and whose task text has
no open bracket and no leading or trailing whitespace, encoding the
CFG header and decoding it with the worker's parser recovers all four
field values, and cleaning recovers exactly the original task text. -/
theorem cfg_header_roundtrip (N R M S T : List Char)
    (hN : safePlain N) (hR : safePlain R) (hM : safePlain M) (hS : safeSys S)
    (hT1 : lbrackChar ∉ T)
    (hT2 : List.dropWhile pyIsSpace T = T)
    (hT3 : List.dropWhile pyIsSpace T.reverse = T.reverse) :
    (_parse_cfg_header (headerize N R M S T)).name = some N ∧
    (_parse_cfg_header (headerize N R M S T)).role = some R ∧
    (_parse_cfg_header (headerize N R M S T)).model = some M ∧
    (_parse_cfg_header (headerize N R M S T)).system_prompt = some S ∧
    _clean_task (headerize N R M S T) = T := by
  have hshape : cfgStrOf N R M S = 'n' :: ('a' :: 'm' :: 'e' :: eqChar :: quoteChar ::
      (N ++ quoteChar :: spaceChar :: (roleKey ++ R ++ quoteChar :: spaceChar ::
        (modelKey ++ M ++ quoteChar :: spaceChar ::
          (sysKey ++ escape_sys S ++ [quoteChar]))))) := by
    simp [cfgStrOf, nameKey]
  have hnorb : rbrackChar ∉ cfgStrOf N R M S := cfgStrOf_no_rbrack N R M S hN hR hM hS
  have hnonl : newlineChar ∉ cfgStrOf N R M S := cfgStrOf_no_newline N R M S hN hR hM hS
  have hg : cfg_group (headerize N R M S T) = some (cfgStrOf N R M S) := by
    rw [headerize_eq, hshape]
    exact cfg_group_at 'n' _ (spaceChar :: T) (by decide) (by rw [← hshape]; exact hnorb)
      (by rw [← hshape]; exact hnonl)
  refine ⟨?_, ?_, ?_, ?_, ?_⟩
  · unfold _parse_cfg_header
    rw [hg]
    dsimp only []
    rw [show "name=\"".toList = nameKey from by decide]
    exact extract_name_cfgStr N R M S hN
  · unfold _parse_cfg_header
    rw [hg]
    dsimp only []
    rw [show "role=\"".toList = roleKey from by decide]
    exact extract_role_cfgStr N R M S hN hR
  · unfold _parse_cfg_header
    rw [hg]
    dsimp only []
    rw [show "model=\"".toList = modelKey from by decide]
    exact extract_model_cfgStr N R M S hN hR hM
  · unfold _parse_cfg_header
    rw [hg]
    dsimp only []
    rw [extract_sys_cfgStr N R M S hN hR hM hS]
    dsimp only [Option.map]
    rw [unescape_escape S (fun c hc => (hS c hc).1)]
  · unfold _clean_task
    rw [headerize_eq, hshape]
    rw [cfg_strip_headerized 'n' _ T (by decide) (by rw [← hshape]; exact hnorb)
      (by rw [← hshape]; exact hnonl) hT1 hT2]
    exact strip_both_of T hT2 hT3

/-- C7 amended witness: the spec's directive round-trip example,
including an escaped double quote in the system prompt. -/
theorem cfg_header_roundtrip_witness :
    (_parse_cfg_header (headerize exampleName exampleRole exampleModel exampleSys
      exampleTask)).name = some exampleName ∧
    (_parse_cfg_header (headerize exampleName exampleRole exampleModel exampleSys
      exampleTask)).role = some exampleRole ∧
    (_parse_cfg_header (headerize exampleName exampleRole exampleModel exampleSys
      exampleTask)).model = some exampleModel ∧
    (_parse_cfg_header (headerize exampleName exampleRole exampleModel exampleSys
      exampleTask)).system_prompt = some exampleSys ∧
    _clean_task (headerize exampleName exampleRole exampleModel exampleSys exampleTask) =
      exampleTask :=
  cfg_header_roundtrip exampleName exampleRole exampleModel exampleSys exampleTask
    (by decide) (by decide) (by decide) (by decide) (by decide) (by decide) (by decide)

/-- C7 counterexample: a system prompt consisting of one closing
square bracket breaks the round trip - the lazy header regex stops at
that bracket, the sys field fails to decode, and the cleaned task text
keeps a residual header fragment. -/
theorem cfg_roundtrip_fails_on_bracket :
    (_parse_cfg_header bracketSub).system_prompt ≠ some bracketSys ∧
    _clean_task bracketSub ≠ "t".toList := by
  constructor
  · decide
  · unfold _clean_task
    rw [show bracketSub = lbrackChar :: 'C' :: 'F' :: 'G' :: spaceChar ::
        'n' :: 'a' :: 'm' :: 'e' :: eqChar :: quoteChar :: 'n' :: quoteChar :: spaceChar ::
        'r' :: 'o' :: 'l' :: 'e' :: eqChar :: quoteChar :: 'r' :: quoteChar :: spaceChar ::
        'm' :: 'o' :: 'd' :: 'e' :: 'l' :: eqChar :: quoteChar :: 'm' :: quoteChar :: spaceChar ::
        's' :: 'y' :: 's' :: eqChar :: quoteChar :: rbrackChar :: quoteChar :: rbrackChar ::
        spaceChar :: 't' :: [] from by decide]
    rw [cfg_strip_cons_match _ _ (by decide)]
    rw [show cfg_consume (lbrackChar :: 'C' :: 'F' :: 'G' :: spaceChar ::
        'n' :: 'a' :: 'm' :: 'e' :: eqChar :: quoteChar :: 'n' :: quoteChar :: spaceChar ::
        'r' :: 'o' :: 'l' :: 'e' :: eqChar :: quoteChar :: 'r' :: quoteChar :: spaceChar ::
        'm' :: 'o' :: 'd' :: 'e' :: 'l' :: eqChar :: quoteChar :: 'm' :: quoteChar :: spaceChar ::
        's' :: 'y' :: 's' :: eqChar :: quoteChar :: rbrackChar :: quoteChar :: rbrackChar ::
        spaceChar :: 't' :: []) =
        quoteChar :: rbrackChar :: spaceChar :: 't' :: [] from by decide]
    rw [cfg_strip_no_lbrack (quoteChar :: rbrackChar :: spaceChar :: 't' :: []) (by decide)]
    decide
